import Mathlib

/-!
# CryptoBox (src/crypto/box.cpp) and the server packet IDs (general.hpp)

A shallow embedding of the `CryptoBox` wrapper around libsodium's
`crypto_box_*` API and of the packet identifiers declared in
`src/data/packets/server/general.hpp`.

Memory is a list of blocks (one block per object: a caller buffer or the
storage of a `bytevector`); a pointer is a block number and an offset, so
that `encryptInPlace` / `decryptInPlace`, which hand the same pointer to
`encryptInto` / `decryptInto` twice, are modelled with real aliasing.
A read or write that leaves its block is undefined behaviour, and so is a
call of `crypto_box_open_easy` whose output overlaps its nonce (the case of
`decryptInPlace`), because what libsodium leaves in memory there is not
determined by the parameters of the model.

libsodium, the random source and `std::vector` are external: they are
parameters (`Env`).  Every call to them is appended to a call log, which
makes the order of the calls observable.
-/

namespace Globed

/-- Type `util::data::byte` (an unsigned char). -/
abbrev byte := Nat

/-- A `byte*`: the null pointer, or a block of memory and an offset in it. -/
inductive Ptr where
  | null
  | mk (block : Nat) (off : Nat)
deriving DecidableEq

/-- Pointer arithmetic `p + n`. -/
def Ptr.add : Ptr → Nat → Ptr
  | .null, _ => .null
  | .mk b o, n => .mk b (o + n)

/-- Whether the `n` bytes at `p` and the `m` bytes at `q` have a byte in common. -/
def Ptr.overlaps : Ptr → Nat → Ptr → Nat → Bool
  | .mk b o, n, .mk b' o', m =>
    decide (b = b' ∧ 0 < n ∧ 0 < m ∧ o < o' + m ∧ o' < o + n)
  | _, _, _, _ => false

/-- Memory: block number to contents. -/
abbrev Heap := List (List byte)

/-- Read `n` bytes at `p`; `none` when the read leaves the block. -/
def Heap.read (h : Heap) (p : Ptr) (n : Nat) : Option (List byte) :=
  match p with
  | .null => none
  | .mk b o =>
    match h[b]? with
    | none => none
    | some blk => if o + n ≤ blk.length then some ((blk.drop o).take n) else none

/-- Write the bytes `bs` at `p`; `none` when the write leaves the block. -/
def Heap.write (h : Heap) (p : Ptr) (bs : List byte) : Option Heap :=
  match p with
  | .null => none
  | .mk b o =>
    match h[b]? with
    | none => none
    | some blk =>
      if o + bs.length ≤ blk.length then
        some (h.set b (blk.take o ++ bs ++ blk.drop (o + bs.length)))
      else none

/-- The calls the code makes to libsodium, libc and `std::vector`, with their
arguments (keys are recorded by value, buffers by pointer). -/
inductive Call where
  | sodium_init
  | crypto_box_keypair
  | memcpy (src : Ptr) (n : Nat)
  | randombytes_buf (buf : Ptr) (size : Nat)
  | crypto_box_easy (c m : Ptr) (mlen : Nat) (n : Ptr) (pk sk : List byte)
  | crypto_box_open_easy (m c : Ptr) (clen : Nat) (n : Ptr) (pk sk : List byte)
  | vector_new (n : Nat)
deriving DecidableEq

/-- The peer public key a logged call hands to the primitive, if it is a call
of the primitive. -/
def Call.peerKey : Call → Option (List byte)
  | .crypto_box_easy _ _ _ _ pk _ => some pk
  | .crypto_box_open_easy _ _ _ _ pk _ => some pk
  | _ => none

/-- The external environment: the platform (`w` is the width of `size_t`,
`max_size` is `std::vector<byte>::max_size()`), libsodium's constants and
functions over a library state `σ` (initialisation flag and random source),
and the constants of `box.hpp`.

`crypto_box_easy m n pk sk` and `crypto_box_open_easy c n pk sk` give the
return code and the bytes the primitive stores through its output pointer,
as functions of the bytes of its inputs at the time of the call. libsodium
allows the message and the ciphertext to overlap, and the output of
`crypto_box_easy` in this code never overlaps the nonce. The output of
`crypto_box_open_easy` may: libsodium reads the nonce again after it has
stored plaintext, so what such a call leaves in memory is not a function of
these parameters, and `decryptInto` gives it no defined outcome. -/
structure Env (σ : Type) where
  w : Nat
  max_size : Nat
  crypto_box_PUBLICKEYBYTES : Nat
  NONCE_LEN : Nat
  MAC_LEN : Nat
  sodium_init : σ → Int × σ
  crypto_box_keypair : σ → (Int × List byte × List byte) × σ
  randombyte : σ → byte × σ
  crypto_box_easy : List byte → List byte → List byte → List byte → Int × List byte
  crypto_box_open_easy : List byte → List byte → List byte → List byte → Int × List byte

/-- Modelled from the spec: `PREFIX_LEN` is declared in `box.hpp`, which is
not among the sources; the spec gives the fixed overhead of a frame as the
nonce length plus the authentication-tag length. -/
def Env.PREFIX_LEN {σ : Type} (env : Env σ) : Nat := env.NONCE_LEN + env.MAC_LEN

/-- Addition in `size_t`. -/
def Env.size_add {σ : Type} (env : Env σ) (a b : Nat) : Nat := (a + b) % 2 ^ env.w

/-- Subtraction in `size_t` (wraps around below zero). -/
def Env.size_sub {σ : Type} (env : Env σ) (a b : Nat) : Nat :=
  (a + (2 ^ env.w - b % 2 ^ env.w)) % 2 ^ env.w

/-- Draw `n` bytes from the random source (`randombytes_buf`). -/
def Env.randombytes {σ : Type} (env : Env σ) : Nat → σ → List byte × σ
  | 0, s => ([], s)
  | n + 1, s =>
    let r := env.randombyte s
    let rest := env.randombytes n r.2
    (r.1 :: rest.1, rest.2)

/-- The state a call runs in: memory, the library state and the call log. -/
structure World (σ : Type) where
  heap : Heap
  lib : σ
  log : List Call
deriving DecidableEq

/-- What a C++ exception carries. `assertion` is the `std::runtime_error` of
`GLOBED_ASSERT`; `length_error` is thrown by the `std::vector` constructor
when the requested size exceeds `max_size()`. -/
inductive Exn where
  | assertion (message : String)
  | length_error
deriving DecidableEq

/-- How a call ends: it returns a value, it throws, or its behaviour is
undefined (an access outside a block, or a call of `crypto_box_open_easy`
whose output overlaps its nonce). The world at a throw is kept, so the
calls made before the throw stay visible. Running out of memory is not
modelled, and blocks are never reclaimed. -/
inductive Outcome (σ : Type) (α : Type) where
  | ret (a : α) (w : World σ)
  | raise (e : Exn) (w : World σ)
  | undefined
deriving DecidableEq

/-- The world an outcome ends in, when it has one. -/
def Outcome.world {σ α : Type} : Outcome σ α → Option (World σ)
  | .ret _ w => some w
  | .raise _ w => some w
  | .undefined => none

/-- Sequencing of two statements: the second runs in the world the first
returned in; a throw or undefined behaviour of the first ends the call. -/
def Outcome.bind {σ α β : Type} (o : Outcome σ α) (f : α → World σ → Outcome σ β) :
    Outcome σ β :=
  match o with
  | .ret a w => f a w
  | .raise e w => .raise e w
  | .undefined => .undefined

/-- Modelled from the spec: `GLOBED_ASSERT` is a macro of a header that is not
among the sources; a failed assertion raises an error that carries the
message. `CRYPTO_ASSERT(condition, message)` prepends "crypto error: ". -/
def CRYPTO_ASSERT {σ : Type} (condition : Bool) (message : String) (w : World σ) :
    Outcome σ Unit :=
  if condition then .ret () w else .raise (.assertion ("crypto error: " ++ message)) w

/-- Macro `CRYPTO_ERR_CHECK(result, message)`: asserts `result == 0`. -/
def CRYPTO_ERR_CHECK {σ : Type} (result : Int) (message : String) (w : World σ) :
    Outcome σ Unit :=
  CRYPTO_ASSERT (result == 0) message w

/-- The construction `bytevector v(n)`: a fresh zero-filled block of `n`
bytes, or `std::length_error` when `n` exceeds `max_size()`. Returns the
number of the block. -/
def vector_new {σ : Type} (env : Env σ) (n : Nat) (w : World σ) : Outcome σ Nat :=
  let w1 : World σ := { w with log := w.log ++ [Call.vector_new n] }
  if n ≤ env.max_size then
    .ret w1.heap.length { w1 with heap := w1.heap ++ [List.replicate n 0] }
  else .raise .length_error w1

/-- The data members of a `CryptoBox`. -/
structure CryptoBox where
  publicKey : List byte
  secretKey : List byte
  peerPublicKey : List byte
deriving DecidableEq

/-- Method `CryptoBox::getPublicKey`. -/
def CryptoBox.getPublicKey (box : CryptoBox) : List byte := box.publicKey

/-- Method `CryptoBox::setPeerKey`: `memcpy` of `crypto_box_PUBLICKEYBYTES`
bytes from `key` into `peerPublicKey`. -/
def CryptoBox.setPeerKey {σ : Type} (env : Env σ) (box : CryptoBox) (key : Ptr)
    (w : World σ) : Outcome σ CryptoBox :=
  match w.heap.read key env.crypto_box_PUBLICKEYBYTES with
  | none => .undefined
  | some k =>
    .ret { box with peerPublicKey := k }
      { w with log := w.log ++ [Call.memcpy key env.crypto_box_PUBLICKEYBYTES] }

/-- The constructor `CryptoBox::CryptoBox(byte* key)`. `raw` is the content of
the object's storage before construction (the members are not initialised by
the constructor itself). -/
def CryptoBox.new {σ : Type} (env : Env σ) (raw : CryptoBox) (key : Ptr) (w : World σ) :
    Outcome σ CryptoBox :=
  let r := env.sodium_init w.lib
  let w1 : World σ := { w with lib := r.2, log := w.log ++ [Call.sodium_init] }
  (CRYPTO_ASSERT (r.1 != -1) "sodium_init failed" w1).bind fun _ w1 =>
    let k := env.crypto_box_keypair w1.lib
    let box : CryptoBox := { raw with publicKey := k.1.2.1, secretKey := k.1.2.2 }
    let w2 : World σ := { w1 with lib := k.2, log := w1.log ++ [Call.crypto_box_keypair] }
    (CRYPTO_ERR_CHECK k.1.1 "crypto_box_keypair failed" w2).bind fun _ w2 =>
      if key ≠ Ptr.null then box.setPeerKey env key w2 else .ret box w2

/-- Method `CryptoBox::encryptInto(const byte* src, byte* dest, size_t size)`. -/
def CryptoBox.encryptInto {σ : Type} (env : Env σ) (box : CryptoBox) (src dest : Ptr)
    (size : Nat) (w : World σ) : Outcome σ Nat :=
  let nonce := dest
  -- randombytes_buf(nonce, NONCE_LEN)
  let rnd := env.randombytes env.NONCE_LEN w.lib
  match w.heap.write nonce rnd.1 with
  | none => .undefined
  | some h1 =>
    let w1 : World σ :=
      { heap := h1, lib := rnd.2, log := w.log ++ [Call.randombytes_buf nonce env.NONCE_LEN] }
    let ciphertext := dest.add env.NONCE_LEN
    -- crypto_box_easy(ciphertext, src, size, nonce, peerPublicKey, secretKey)
    match w1.heap.read src size, w1.heap.read nonce env.NONCE_LEN with
    | some m, some n =>
      let r := env.crypto_box_easy m n box.peerPublicKey box.secretKey
      match w1.heap.write ciphertext r.2 with
      | none => .undefined
      | some h2 =>
        let w2 : World σ :=
          { w1 with
            heap := h2
            log := w1.log ++
              [Call.crypto_box_easy ciphertext src size nonce box.peerPublicKey box.secretKey] }
        (CRYPTO_ERR_CHECK r.1 "crypto_box_easy failed" w2).bind fun _ w2 =>
          .ret (env.size_add size env.PREFIX_LEN) w2
    | _, _ => .undefined

/-- Method `CryptoBox::encryptInto(const bytevector& src, byte* dest)`; `src` is
the block of the vector. -/
def CryptoBox.encryptInto_bytevector {σ : Type} (env : Env σ) (box : CryptoBox) (src : Nat)
    (dest : Ptr) (w : World σ) : Outcome σ Nat :=
  match w.heap[src]? with
  | none => .undefined
  | some v => box.encryptInto env (.mk src 0) dest v.length w

/-- Method `CryptoBox::encryptInPlace(byte* data, size_t size)`. -/
def CryptoBox.encryptInPlace {σ : Type} (env : Env σ) (box : CryptoBox) (data : Ptr)
    (size : Nat) (w : World σ) : Outcome σ Nat :=
  box.encryptInto env data data size w

/-- Method `CryptoBox::encrypt(const byte* src, size_t size)`; the result is the
block of the returned vector. -/
def CryptoBox.encrypt {σ : Type} (env : Env σ) (box : CryptoBox) (src : Ptr) (size : Nat)
    (w : World σ) : Outcome σ Nat :=
  (vector_new env (env.size_add size env.PREFIX_LEN) w).bind fun output w1 =>
    (box.encryptInto env src (.mk output 0) size w1).bind fun _ w2 =>
      .ret output w2

/-- Method `CryptoBox::encrypt(const bytevector& src)`. -/
def CryptoBox.encrypt_bytevector {σ : Type} (env : Env σ) (box : CryptoBox) (src : Nat)
    (w : World σ) : Outcome σ Nat :=
  match w.heap[src]? with
  | none => .undefined
  | some v => box.encrypt env (.mk src 0) v.length w

/-- Method `CryptoBox::decryptInto(const byte* src, byte* dest, size_t size)`. -/
def CryptoBox.decryptInto {σ : Type} (env : Env σ) (box : CryptoBox) (src dest : Ptr)
    (size : Nat) (w : World σ) : Outcome σ Nat :=
  (CRYPTO_ASSERT (decide (size ≥ env.PREFIX_LEN)) "message is too short" w).bind fun _ w =>
    let nonce := src
    let ciphertext := src.add env.NONCE_LEN
    let plaintextLength := env.size_sub size env.PREFIX_LEN
    let ciphertextLength := env.size_sub size env.NONCE_LEN
    -- crypto_box_open_easy(dest, ciphertext, ciphertextLength, nonce, peerPublicKey, secretKey)
    match w.heap.read ciphertext ciphertextLength, w.heap.read nonce env.NONCE_LEN with
    | some c, some n =>
      let r := env.crypto_box_open_easy c n box.peerPublicKey box.secretKey
      if dest.overlaps r.2.length nonce env.NONCE_LEN then .undefined
      else
        match w.heap.write dest r.2 with
        | none => .undefined
        | some h1 =>
          let w1 : World σ :=
            { w with
              heap := h1
              log := w.log ++
                [Call.crypto_box_open_easy dest ciphertext ciphertextLength nonce
                  box.peerPublicKey box.secretKey] }
          (CRYPTO_ERR_CHECK r.1 "crypto_box_open_easy failed" w1).bind fun _ w1 =>
            .ret plaintextLength w1
    | _, _ => .undefined

/-- Method `CryptoBox::decryptInPlace(byte* data, size_t size)`. The output
pointer is the nonce pointer, so whenever the primitive stores at least one
byte the outcome is undefined in this model (see `Env`). -/
def CryptoBox.decryptInPlace {σ : Type} (env : Env σ) (box : CryptoBox) (data : Ptr)
    (size : Nat) (w : World σ) : Outcome σ Nat :=
  box.decryptInto env data data size w

/-- Method `CryptoBox::decrypt(const byte* src, size_t size)`; the result is the
block of the returned vector. -/
def CryptoBox.decrypt {σ : Type} (env : Env σ) (box : CryptoBox) (src : Ptr) (size : Nat)
    (w : World σ) : Outcome σ Nat :=
  let plaintextLength := env.size_sub size env.PREFIX_LEN
  (vector_new env plaintextLength w).bind fun plaintext w1 =>
    (box.decryptInto env src (.mk plaintext 0) size w1).bind fun _ w2 =>
      .ret plaintext w2

/-- Method `CryptoBox::decrypt(const bytevector& src)`. -/
def CryptoBox.decrypt_bytevector {σ : Type} (env : Env σ) (box : CryptoBox) (src : Nat)
    (w : World σ) : Outcome σ Nat :=
  match w.heap[src]? with
  | none => .undefined
  | some v => box.decrypt env (.mk src 0) v.length w

/-- Method `CryptoBox::decryptToString(const byte* src, size_t size)`; a
`std::string` is returned by value, as its characters. -/
def CryptoBox.decryptToString {σ : Type} (env : Env σ) (box : CryptoBox) (src : Ptr)
    (size : Nat) (w : World σ) : Outcome σ (List byte) :=
  (box.decrypt env src size w).bind fun vec w1 =>
    match w1.heap[vec]? with
    | none => .undefined
    | some bytes => .ret bytes w1

/-- Method `CryptoBox::decryptToString(const bytevector& src)`. -/
def CryptoBox.decryptToString_bytevector {σ : Type} (env : Env σ) (box : CryptoBox)
    (src : Nat) (w : World σ) : Outcome σ (List byte) :=
  (box.decrypt_bytevector env src w).bind fun vec w1 =>
    match w1.heap[vec]? with
    | none => .undefined
    | some bytes => .ret bytes w1

/-- The nonce the next `encryptInto` in world `w` draws from the random source. -/
def Env.drawnNonce {σ : Type} (env : Env σ) (w : World σ) : List byte :=
  (env.randombytes env.NONCE_LEN w.lib).1

/-- The primitive's seal of `m` under `nonce`, the peer public key stored in
`box` and the local secret key: return code and ciphertext. -/
def CryptoBox.sealed {σ : Type} (env : Env σ) (box : CryptoBox) (m nonce : List byte) :
    Int × List byte :=
  env.crypto_box_easy m nonce box.peerPublicKey box.secretKey

/-- The primitive's open of the frame `F` split at `NONCE_LEN`, under the peer
public key stored in `box` and the local secret key: return code and the
bytes stored through the output pointer. -/
def CryptoBox.opened {σ : Type} (env : Env σ) (box : CryptoBox) (F : List byte) :
    Int × List byte :=
  env.crypto_box_open_easy (F.drop env.NONCE_LEN) (F.take env.NONCE_LEN)
    box.peerPublicKey box.secretKey

/-! ### A small executable environment

A stand-in for libsodium with the real sizes (64-bit `size_t`, 24-byte nonce,
16-byte tag, 32-byte keys), used to run the code on concrete inputs. It is in
no way secure. -/

/-- Library state of the stand-in: whether `sodium_init` has run, and a seed. -/
structure ToyLib where
  inited : Bool
  seed : Nat
deriving DecidableEq

/-- The key stream byte of the stand-in cipher. -/
def toyKey (n pk sk : List byte) : byte := n.headD 0 ^^^ pk.headD 0 ^^^ sk.headD 0

/-- The 16-byte tag of the stand-in cipher. -/
def toyTag (k : byte) (m : List byte) : List byte := List.replicate 16 ((k + m.sum) % 256)

/-- Seal of the stand-in cipher: tag, then the message xor the key byte. -/
def toySeal (m n pk sk : List byte) : Int × List byte :=
  (0, toyTag (toyKey n pk sk) m ++ m.map (fun b => b ^^^ toyKey n pk sk))

/-- Open of the stand-in cipher: nothing is stored when the tag is wrong. -/
def toyOpen (c n pk sk : List byte) : Int × List byte :=
  let m := (c.drop 16).map (fun b => b ^^^ toyKey n pk sk)
  if 16 ≤ c.length ∧ c.take 16 = toyTag (toyKey n pk sk) m then (0, m) else (-1, [])

/-- The stand-in environment. -/
def toyEnv : Env ToyLib where
  w := 64
  max_size := 2 ^ 63 - 1
  crypto_box_PUBLICKEYBYTES := 32
  NONCE_LEN := 24
  MAC_LEN := 16
  sodium_init := fun s => (if s.inited then 1 else 0, { s with inited := true })
  crypto_box_keypair := fun s =>
    ((0, List.replicate 32 (s.seed % 256), List.replicate 32 (s.seed % 256)),
      { s with seed := s.seed + 1 })
  randombyte := fun s => ((s.seed * 37 + 11) % 256, { s with seed := s.seed + 1 })
  crypto_box_easy := toySeal
  crypto_box_open_easy := toyOpen

/-- Box A of the examples: its keypair and the public key of box B. -/
def demoBoxA : CryptoBox :=
  { publicKey := List.replicate 32 5, secretKey := List.replicate 32 5,
    peerPublicKey := List.replicate 32 9 }

/-- Box B of the examples: its keypair and the public key of box A. -/
def demoBoxB : CryptoBox :=
  { publicKey := List.replicate 32 9, secretKey := List.replicate 32 9,
    peerPublicKey := List.replicate 32 5 }

/-- A world whose only block is a three-byte buffer. -/
def demoWorld : World ToyLib := { heap := [[1, 2, 3]], lib := { inited := false, seed := 0 }, log := [] }

/-- A world whose only block holds the plaintext 1, 2, 3 followed by 40 bytes
of headroom for the nonce and the tag. -/
def demoInPlaceWorld : World ToyLib :=
  { heap := [[1, 2, 3] ++ List.replicate 40 0], lib := { inited := false, seed := 0 }, log := [] }

/-- The 24 bytes the random source of `demoWorld` yields next. -/
def demoNonce : List byte :=
  [11, 48, 85, 122, 159, 196, 233, 14, 51, 88, 125, 162, 199, 236, 17, 54, 91, 128, 165, 202,
    239, 20, 57, 94]

/-- The frame box A produces for the plaintext 1, 2, 3 under `demoNonce`. -/
def demoFrame : List byte :=
  demoNonce ++ [13, 13, 13, 13, 13, 13, 13, 13, 13, 13, 13, 13, 13, 13, 13, 13, 6, 5, 4]

/-- The frame `demoFrame` with its last byte changed. -/
def demoTampered : List byte :=
  demoNonce ++ [13, 13, 13, 13, 13, 13, 13, 13, 13, 13, 13, 13, 13, 13, 13, 13, 6, 5, 5]

/-- A world that holds `demoFrame` in block 0 and `demoTampered` in block 1. -/
def demoFrameWorld : World ToyLib :=
  { heap := [demoFrame, demoTampered], lib := { inited := true, seed := 24 }, log := [] }

/-! ### Packet identifiers (src/data/packets/server/general.hpp) -/

/-- The packet classes declared in `general.hpp`. -/
inductive ServerGeneralPacket where
  | GlobalPlayerListPacket
  | RoomCreatedPacket
  | RoomJoinedPacket
  | RoomJoinFailedPacket
  | RoomPlayerListPacket
  | LevelListPacket
deriving DecidableEq

/-- The first argument of each class's `GLOBED_PACKET(id, _, _)` line. -/
def ServerGeneralPacket.PACKET_ID : ServerGeneralPacket → Nat
  | .GlobalPlayerListPacket => 21000
  | .RoomCreatedPacket => 21001
  | .RoomJoinedPacket => 21002
  | .RoomJoinFailedPacket => 21003
  | .RoomPlayerListPacket => 21004
  | .LevelListPacket => 21005

/-- The identifier as it travels in the `u16` field of the wire header. -/
def ServerGeneralPacket.wireId (p : ServerGeneralPacket) : Nat := p.PACKET_ID % 2 ^ 16

/-- All the packet classes of `general.hpp`, in declaration order. -/
def ServerGeneralPacket.all : List ServerGeneralPacket :=
  [.GlobalPlayerListPacket, .RoomCreatedPacket, .RoomJoinedPacket, .RoomJoinFailedPacket,
    .RoomPlayerListPacket, .LevelListPacket]

/-- A registry keyed by the wire identifier: the classes whose decode routine
answers to `id`. -/
def ServerGeneralPacket.registry (id : Nat) : List ServerGeneralPacket :=
  ServerGeneralPacket.all.filter (fun p => p.wireId == id)

/-! ## Lemmas -/

theorem take_succ_append {α : Type} (l : List α) (a : α) (r : List α) :
    (l ++ a :: r).take (l.length + 1) = l ++ [a] := by
  induction l with
  | nil => simp
  | cons x l ih => simp [ih]

theorem randombytes_length {σ : Type} (env : Env σ) (n : Nat) (s : σ) :
    (env.randombytes n s).1.length = n := by
  induction n generalizing s with
  | zero => rfl
  | succ n ih => simp [Env.randombytes, ih]

theorem size_add_of_lt {σ : Type} (env : Env σ) (a b : Nat) (h : a + b < 2 ^ env.w) :
    env.size_add a b = a + b := by
  unfold Env.size_add
  exact Nat.mod_eq_of_lt h

theorem size_sub_of_le {σ : Type} (env : Env σ) (a b : Nat) (hab : b ≤ a)
    (ha : a < 2 ^ env.w) : env.size_sub a b = a - b := by
  unfold Env.size_sub
  generalize 2 ^ env.w = N at *
  have hb : b % N = b := Nat.mod_eq_of_lt (by omega)
  have e : a + (N - b) = (a - b) + N := by omega
  rw [hb, e, Nat.add_mod_right, Nat.mod_eq_of_lt (by omega)]

theorem size_sub_of_lt {σ : Type} (env : Env σ) (a b : Nat) (hab : a < b)
    (hb : b ≤ 2 ^ env.w) : env.size_sub a b = 2 ^ env.w - (b - a) := by
  unfold Env.size_sub
  generalize 2 ^ env.w = N at *
  rcases Nat.lt_or_ge b N with h | h
  · rw [Nat.mod_eq_of_lt h, Nat.mod_eq_of_lt (by omega)]
    omega
  · have e : b = N := by omega
    subst e
    rw [Nat.mod_self, Nat.sub_zero, Nat.add_mod_right, Nat.mod_eq_of_lt hab]
    omega

@[simp] theorem bind_ret {σ α β : Type} (a : α) (w : World σ)
    (f : α → World σ → Outcome σ β) : (Outcome.ret a w).bind f = f a w := rfl

@[simp] theorem bind_raise {σ α β : Type} (e : Exn) (w : World σ)
    (f : α → World σ → Outcome σ β) : (Outcome.raise e w : Outcome σ α).bind f = .raise e w :=
  rfl

@[simp] theorem bind_undefined {σ α β : Type} (f : α → World σ → Outcome σ β) :
    (Outcome.undefined : Outcome σ α).bind f = .undefined := rfl

theorem CRYPTO_ERR_CHECK_eq {σ : Type} (result : Int) (message : String) (w : World σ) :
    CRYPTO_ERR_CHECK result message w =
      if result = 0 then .ret () w else .raise (.assertion ("crypto error: " ++ message)) w := by
  unfold CRYPTO_ERR_CHECK CRYPTO_ASSERT
  by_cases h : result = 0 <;> simp [h]

/-- The body of `decryptInto` with the two macros expanded. -/
theorem decryptInto_eq {σ : Type} (env : Env σ) (box : CryptoBox) (src dest : Ptr)
    (size : Nat) (w : World σ) :
    box.decryptInto env src dest size w =
      if size < env.PREFIX_LEN then
        .raise (.assertion "crypto error: message is too short") w
      else
        match w.heap.read (src.add env.NONCE_LEN) (env.size_sub size env.NONCE_LEN),
            w.heap.read src env.NONCE_LEN with
        | some c, some n =>
          if dest.overlaps (env.crypto_box_open_easy c n box.peerPublicKey
              box.secretKey).2.length src env.NONCE_LEN then .undefined
          else
            match w.heap.write dest
                (env.crypto_box_open_easy c n box.peerPublicKey box.secretKey).2 with
            | none => .undefined
            | some h1 =>
              if (env.crypto_box_open_easy c n box.peerPublicKey box.secretKey).1 = 0 then
                .ret (env.size_sub size env.PREFIX_LEN)
                  { w with
                    heap := h1
                    log := w.log ++
                      [Call.crypto_box_open_easy dest (src.add env.NONCE_LEN)
                        (env.size_sub size env.NONCE_LEN) src box.peerPublicKey
                        box.secretKey] }
              else
                .raise (.assertion "crypto error: crypto_box_open_easy failed")
                  { w with
                    heap := h1
                    log := w.log ++
                      [Call.crypto_box_open_easy dest (src.add env.NONCE_LEN)
                        (env.size_sub size env.NONCE_LEN) src box.peerPublicKey
                        box.secretKey] }
        | _, _ => .undefined := by
  unfold CryptoBox.decryptInto
  simp only [CRYPTO_ERR_CHECK_eq]
  unfold CRYPTO_ASSERT
  by_cases hs : size < env.PREFIX_LEN
  · have hs' : ¬ size ≥ env.PREFIX_LEN := by omega
    simp only [hs, hs', decide_False, if_true, Bool.false_eq_true, if_false, bind_raise]
    rfl
  · have hs' : size ≥ env.PREFIX_LEN := by omega
    simp only [hs, hs', decide_True, if_true, if_false, bind_ret]
    cases hc : w.heap.read (src.add env.NONCE_LEN) (env.size_sub size env.NONCE_LEN) with
    | none => rfl
    | some c =>
      cases hn : w.heap.read src env.NONCE_LEN with
      | none => rfl
      | some n =>
        simp only []
        by_cases hov : dest.overlaps (env.crypto_box_open_easy c n box.peerPublicKey
            box.secretKey).2.length src env.NONCE_LEN = true
        · simp only [hov, if_true]
        · simp only [hov, Bool.false_eq_true, if_false]
          cases hw : w.heap.write dest
              (env.crypto_box_open_easy c n box.peerPublicKey box.secretKey).2 with
          | none => rfl
          | some h1 =>
            by_cases hrc :
                (env.crypto_box_open_easy c n box.peerPublicKey box.secretKey).1 = 0
            · simp only [hrc, if_true, bind_ret]
            · simp only [hrc, if_false, bind_raise]
              rfl

/-- The body of `encryptInto` with the macro expanded. -/
theorem encryptInto_eq {σ : Type} (env : Env σ) (box : CryptoBox) (src dest : Ptr)
    (size : Nat) (w : World σ) :
    box.encryptInto env src dest size w =
      match w.heap.write dest (env.randombytes env.NONCE_LEN w.lib).1 with
      | none => .undefined
      | some h1 =>
        match h1.read src size, h1.read dest env.NONCE_LEN with
        | some m, some n =>
          match h1.write (dest.add env.NONCE_LEN)
              (env.crypto_box_easy m n box.peerPublicKey box.secretKey).2 with
          | none => .undefined
          | some h2 =>
            if (env.crypto_box_easy m n box.peerPublicKey box.secretKey).1 = 0 then
              .ret (env.size_add size env.PREFIX_LEN)
                { heap := h2
                  lib := (env.randombytes env.NONCE_LEN w.lib).2
                  log := w.log ++ [Call.randombytes_buf dest env.NONCE_LEN] ++
                    [Call.crypto_box_easy (dest.add env.NONCE_LEN) src size dest
                      box.peerPublicKey box.secretKey] }
            else
              .raise (.assertion "crypto error: crypto_box_easy failed")
                { heap := h2
                  lib := (env.randombytes env.NONCE_LEN w.lib).2
                  log := w.log ++ [Call.randombytes_buf dest env.NONCE_LEN] ++
                    [Call.crypto_box_easy (dest.add env.NONCE_LEN) src size dest
                      box.peerPublicKey box.secretKey] }
        | _, _ => .undefined := by
  unfold CryptoBox.encryptInto
  simp only [CRYPTO_ERR_CHECK_eq]
  cases hw1 : w.heap.write dest (env.randombytes env.NONCE_LEN w.lib).1 with
  | none => rfl
  | some h1 =>
    simp only []
    cases hm : h1.read src size with
    | none => rfl
    | some m =>
      cases hn : h1.read dest env.NONCE_LEN with
      | none => rfl
      | some n =>
        simp only []
        cases hw2 : h1.write (dest.add env.NONCE_LEN)
            (env.crypto_box_easy m n box.peerPublicKey box.secretKey).2 with
        | none => rfl
        | some h2 =>
          by_cases hrc : (env.crypto_box_easy m n box.peerPublicKey box.secretKey).1 = 0
          · simp only [hrc, if_true, bind_ret]
          · simp only [hrc, if_false, bind_raise]
            rfl

/-- The log of `decryptInto` either stays as it was (the length check failed)
or gains exactly the call of the primitive. -/
theorem decryptInto_log {σ : Type} (env : Env σ) (box : CryptoBox) (src dest : Ptr)
    (size : Nat) (w w' : World σ)
    (h : (box.decryptInto env src dest size w).world = some w') :
    w'.log = w.log ∨
      w'.log = w.log ++
        [Call.crypto_box_open_easy dest (src.add env.NONCE_LEN)
          (env.size_sub size env.NONCE_LEN) src box.peerPublicKey box.secretKey] := by
  rw [decryptInto_eq] at h
  split at h
  · left
    simp [Outcome.world] at h
    simp [← h]
  · right
    split at h
    · split at h
      · simp [Outcome.world] at h
      · split at h
        · simp [Outcome.world] at h
        · split at h <;> simp [Outcome.world] at h <;> simp [← h]
    · simp [Outcome.world] at h

/-- The log of `encryptInto` gains the draw of the nonce and the call of the
primitive. -/
theorem encryptInto_log {σ : Type} (env : Env σ) (box : CryptoBox) (src dest : Ptr)
    (size : Nat) (w w' : World σ)
    (h : (box.encryptInto env src dest size w).world = some w') :
    w'.log = w.log ++ [Call.randombytes_buf dest env.NONCE_LEN] ++
        [Call.crypto_box_easy (dest.add env.NONCE_LEN) src size dest
          box.peerPublicKey box.secretKey] := by
  rw [encryptInto_eq] at h
  split at h
  · simp [Outcome.world] at h
  · split at h
    · split at h
      · simp [Outcome.world] at h
      · split at h <;> simp [Outcome.world] at h <;> simp [← h]
    · simp [Outcome.world] at h

/-- A frame shorter than `PREFIX_LEN` makes `decryptInto` raise the length
error at once: memory, library state and call log are untouched. -/
theorem decryptInto_short {σ : Type} (env : Env σ) (box : CryptoBox) (src dest : Ptr)
    (size : Nat) (w : World σ) (h : size < env.PREFIX_LEN) :
    box.decryptInto env src dest size w =
      .raise (.assertion "crypto error: message is too short") w := by
  rw [decryptInto_eq, if_pos h]

/-- The body of the constructor with the two macros expanded. -/
theorem new_eq {σ : Type} (env : Env σ) (raw : CryptoBox) (key : Ptr) (w : World σ) :
    CryptoBox.new env raw key w =
      if (env.sodium_init w.lib).1 = -1 then
        .raise (.assertion "crypto error: sodium_init failed")
          { w with lib := (env.sodium_init w.lib).2, log := w.log ++ [Call.sodium_init] }
      else if (env.crypto_box_keypair (env.sodium_init w.lib).2).1.1 = 0 then
        if key ≠ Ptr.null then
          CryptoBox.setPeerKey env
            { raw with
              publicKey := (env.crypto_box_keypair (env.sodium_init w.lib).2).1.2.1
              secretKey := (env.crypto_box_keypair (env.sodium_init w.lib).2).1.2.2 }
            key
            { w with
              lib := (env.crypto_box_keypair (env.sodium_init w.lib).2).2
              log := w.log ++ [Call.sodium_init] ++ [Call.crypto_box_keypair] }
        else
          .ret
            { raw with
              publicKey := (env.crypto_box_keypair (env.sodium_init w.lib).2).1.2.1
              secretKey := (env.crypto_box_keypair (env.sodium_init w.lib).2).1.2.2 }
            { w with
              lib := (env.crypto_box_keypair (env.sodium_init w.lib).2).2
              log := w.log ++ [Call.sodium_init] ++ [Call.crypto_box_keypair] }
      else
        .raise (.assertion "crypto error: crypto_box_keypair failed")
          { w with
            lib := (env.crypto_box_keypair (env.sodium_init w.lib).2).2
            log := w.log ++ [Call.sodium_init] ++ [Call.crypto_box_keypair] } := by
  unfold CryptoBox.new
  simp only [CRYPTO_ERR_CHECK_eq]
  unfold CRYPTO_ASSERT
  by_cases hi : (env.sodium_init w.lib).1 = -1
  · simp only [hi, bne_self_eq_false, Bool.false_eq_true, if_false, if_true, bind_raise]
    rfl
  · have hb : ((env.sodium_init w.lib).1 != -1) = true := by simpa using hi
    simp only [hb, hi, if_true, if_false, bind_ret]
    by_cases hk : (env.crypto_box_keypair (env.sodium_init w.lib).2).1.1 = 0
    · simp only [hk, if_true, bind_ret]
    · simp only [hk, if_false, bind_raise]
      rfl

theorem drop_length_append {α : Type} (l r : List α) : (l ++ r).drop l.length = r := by
  induction l with
  | nil => rfl
  | cons x l ih => simp

/-- The world of a caller that only renames the returned value. -/
theorem world_of_relabel {σ α β : Type} (o : Outcome σ α) (b : β) :
    (o.bind fun _ w2 => .ret b w2).world = o.world := by
  cases o <;> rfl

/-- Every call of the primitive that `encrypt` logs carries the stored peer key. -/
theorem encrypt_peerKey {σ : Type} (env : Env σ) (box : CryptoBox) (src : Ptr) (size : Nat)
    (w w' : World σ) (h : (box.encrypt env src size w).world = some w') :
    ∀ c ∈ w'.log.drop w.log.length, c.peerKey = none ∨ c.peerKey = some box.peerPublicKey := by
  unfold CryptoBox.encrypt vector_new at h
  by_cases hm : env.size_add size env.PREFIX_LEN ≤ env.max_size
  · simp only [hm, if_true, bind_ret] at h
    rw [world_of_relabel] at h
    have hl := encryptInto_log env box src _ size _ w' h
    simp only [List.append_assoc] at hl
    rw [hl, drop_length_append]
    intro c hc
    simp only [List.singleton_append, List.mem_cons, List.mem_singleton, List.not_mem_nil,
      or_false] at hc
    rcases hc with rfl | rfl | rfl
    · left; rfl
    · left; rfl
    · right; rfl
  · simp only [hm, if_false, bind_raise, Outcome.world, Option.some.injEq] at h
    rw [← h, drop_length_append]
    intro c hc
    simp only [List.mem_singleton] at hc
    subst hc
    left; rfl

/-- Every call of the primitive that `decrypt` logs carries the stored peer key. -/
theorem decrypt_peerKey {σ : Type} (env : Env σ) (box : CryptoBox) (src : Ptr) (size : Nat)
    (w w' : World σ) (h : (box.decrypt env src size w).world = some w') :
    ∀ c ∈ w'.log.drop w.log.length, c.peerKey = none ∨ c.peerKey = some box.peerPublicKey := by
  unfold CryptoBox.decrypt vector_new at h
  by_cases hm : env.size_sub size env.PREFIX_LEN ≤ env.max_size
  · simp only [hm, if_true, bind_ret] at h
    rw [world_of_relabel] at h
    rcases decryptInto_log env box src _ size _ w' h with hl | hl
    · rw [hl, drop_length_append]
      intro c hc
      simp only [List.mem_singleton] at hc
      subst hc
      left; rfl
    · simp only [List.append_assoc] at hl
      rw [hl, drop_length_append]
      intro c hc
      simp only [List.singleton_append, List.mem_cons, List.mem_singleton, List.not_mem_nil,
        or_false] at hc
      rcases hc with rfl | rfl
      · left; rfl
      · right; rfl
  · simp only [hm, if_false, bind_raise, Outcome.world, Option.some.injEq] at h
    rw [← h, drop_length_append]
    intro c hc
    simp only [List.mem_singleton] at hc
    subst hc
    left; rfl

theorem read_length (h : Heap) (p : Ptr) (n : Nat) (x : List byte)
    (hr : h.read p n = some x) : x.length = n := by
  unfold Heap.read at hr
  split at hr
  · simp at hr
  · split at hr
    · simp at hr
    · split at hr
      · simp only [Option.some.injEq] at hr
        rw [← hr, List.length_take, List.length_drop]
        omega
      · simp at hr

theorem read_old (h : Heap) (blk : List byte) (p : Ptr) (n : Nat) (x : List byte)
    (hr : h.read p n = some x) : Heap.read (h ++ [blk]) p n = some x := by
  unfold Heap.read at hr ⊢
  cases p with
  | null => simp at hr
  | mk b o =>
    simp only at hr ⊢
    cases hb : h[b]? with
    | none => simp [hb] at hr
    | some old =>
      have hlt : b < h.length := by
        rcases Nat.lt_or_ge b h.length with hl | hl
        · exact hl
        · rw [List.getElem?_eq_none hl] at hb
          simp at hb
      rw [List.getElem?_append_left hlt, hb]
      simpa [hb] using hr

theorem read_fresh (h : Heap) (blk : List byte) (o n : Nat) (hle : o + n ≤ blk.length) :
    Heap.read (h ++ [blk]) (Ptr.mk h.length o) n = some ((blk.drop o).take n) := by
  unfold Heap.read
  simp [hle]

theorem write_fresh (h : Heap) (blk : List byte) (o : Nat) (bs : List byte)
    (hle : o + bs.length ≤ blk.length) :
    Heap.write (h ++ [blk]) (Ptr.mk h.length o) bs =
      some (h ++ [blk.take o ++ bs ++ blk.drop (o + bs.length)]) := by
  unfold Heap.write
  simp [hle]

theorem read_split (h : Heap) (p : Ptr) (a b : Nat) (x : List byte)
    (hr : h.read p (a + b) = some x) :
    h.read p a = some (x.take a) ∧ h.read (p.add a) b = some (x.drop a) := by
  unfold Heap.read at hr ⊢
  cases p with
  | null => simp at hr
  | mk blk o =>
    simp only [Ptr.add] at hr ⊢
    cases hb : h[blk]? with
    | none => simp [hb] at hr
    | some old =>
      simp only [hb] at hr ⊢
      by_cases hle : o + (a + b) ≤ old.length
      · simp only [hle, if_true, Option.some.injEq] at hr
        have h1 : o + a ≤ old.length := by omega
        have h2 : o + a + b ≤ old.length := by omega
        simp only [h1, h2, if_true, Option.some.injEq]
        subst hr
        constructor
        · rw [List.take_take]
          simp
        · rw [List.drop_take, List.drop_drop]
          simp [Nat.add_comm]
      · simp [hle] at hr


/-- A fresh block shares no byte with a pointer that reads in older memory. -/
theorem overlaps_fresh (h : Heap) (src : Ptr) (size : Nat) (F : List byte)
    (hsrc : h.read src size = some F) (n m : Nat) :
    (Ptr.mk h.length 0).overlaps n src m = false := by
  cases src with
  | null => rfl
  | mk b o =>
    have hlt : b < h.length := by
      unfold Heap.read at hsrc
      rcases Nat.lt_or_ge b h.length with hl | hl
      · exact hl
      · simp [List.getElem?_eq_none hl] at hsrc
    unfold Ptr.overlaps
    simp only [decide_eq_false_iff_not, not_and]
    intro hb
    omega

/-- What `encryptInto` does when `dest` is a fresh vector of `size + PREFIX_LEN`
bytes and `src` points to `size` readable bytes `P` of older memory. -/
theorem encryptInto_fresh {σ : Type} (env : Env σ) (box : CryptoBox) (src : Ptr)
    (size : Nat) (P : List byte) (h : Heap) (lib : σ) (log : List Call)
    (hsrc : h.read src size = some P)
    (hlen : (env.crypto_box_easy P (env.randombytes env.NONCE_LEN lib).1
      box.peerPublicKey box.secretKey).2.length = size + env.MAC_LEN) :
    box.encryptInto env src (Ptr.mk h.length 0) size
        { heap := h ++ [List.replicate (size + env.PREFIX_LEN) 0], lib := lib, log := log } =
      if (env.crypto_box_easy P (env.randombytes env.NONCE_LEN lib).1
          box.peerPublicKey box.secretKey).1 = 0 then
        .ret (env.size_add size env.PREFIX_LEN)
          { heap := h ++ [(env.randombytes env.NONCE_LEN lib).1 ++
              (env.crypto_box_easy P (env.randombytes env.NONCE_LEN lib).1
                box.peerPublicKey box.secretKey).2]
            lib := (env.randombytes env.NONCE_LEN lib).2
            log := log ++ [Call.randombytes_buf (Ptr.mk h.length 0) env.NONCE_LEN] ++
              [Call.crypto_box_easy (Ptr.mk h.length env.NONCE_LEN) src size (Ptr.mk h.length 0)
                box.peerPublicKey box.secretKey] }
      else
        .raise (.assertion "crypto error: crypto_box_easy failed")
          { heap := h ++ [(env.randombytes env.NONCE_LEN lib).1 ++
              (env.crypto_box_easy P (env.randombytes env.NONCE_LEN lib).1
                box.peerPublicKey box.secretKey).2]
            lib := (env.randombytes env.NONCE_LEN lib).2
            log := log ++ [Call.randombytes_buf (Ptr.mk h.length 0) env.NONCE_LEN] ++
              [Call.crypto_box_easy (Ptr.mk h.length env.NONCE_LEN) src size (Ptr.mk h.length 0)
                box.peerPublicKey box.secretKey] } := by
  generalize hnonce : (env.randombytes env.NONCE_LEN lib).1 = nonce at hlen ⊢
  have hnl : nonce.length = env.NONCE_LEN := by
    rw [← hnonce]
    exact randombytes_length env _ _
  generalize hc : env.crypto_box_easy P nonce box.peerPublicKey box.secretKey = r at hlen ⊢
  have hsz : size + env.PREFIX_LEN = nonce.length + r.2.length := by
    unfold Env.PREFIX_LEN
    omega
  rw [encryptInto_eq]
  simp only [hnonce, hsz]
  rw [write_fresh h _ 0 nonce (by simp)]
  simp only []
  rw [read_old h _ src size P hsrc, read_fresh h _ 0 env.NONCE_LEN (by simp; omega)]
  have hn : List.take env.NONCE_LEN
      (List.drop 0
        (List.take 0 (List.replicate (nonce.length + r.2.length) (0 : byte)) ++ nonce ++
          List.drop (0 + nonce.length) (List.replicate (nonce.length + r.2.length) 0))) =
      nonce := by
    simp [← hnl]
  simp only [hn, hc, Ptr.add]
  rw [← hnl, Nat.zero_add, write_fresh h _ nonce.length r.2 (by simp)]
  simp

/-- What `encrypt` does when `src` points to `size` readable bytes `P`, the
frame fits a vector, and the primitive stores `size + MAC_LEN` bytes. -/
theorem encrypt_eq {σ : Type} (env : Env σ) (box : CryptoBox) (src : Ptr)
    (size : Nat) (P : List byte) (w : World σ)
    (hsrc : w.heap.read src size = some P)
    (hfit : size + env.PREFIX_LEN ≤ env.max_size) (hmax : env.max_size < 2 ^ env.w)
    (hlen : (env.crypto_box_easy P (env.randombytes env.NONCE_LEN w.lib).1
      box.peerPublicKey box.secretKey).2.length = size + env.MAC_LEN) :
    box.encrypt env src size w =
      if (env.crypto_box_easy P (env.randombytes env.NONCE_LEN w.lib).1
          box.peerPublicKey box.secretKey).1 = 0 then
        .ret w.heap.length
          { heap := w.heap ++ [(env.randombytes env.NONCE_LEN w.lib).1 ++
              (env.crypto_box_easy P (env.randombytes env.NONCE_LEN w.lib).1
                box.peerPublicKey box.secretKey).2]
            lib := (env.randombytes env.NONCE_LEN w.lib).2
            log := w.log ++ [Call.vector_new (size + env.PREFIX_LEN)] ++
              [Call.randombytes_buf (Ptr.mk w.heap.length 0) env.NONCE_LEN] ++
              [Call.crypto_box_easy (Ptr.mk w.heap.length env.NONCE_LEN) src size
                (Ptr.mk w.heap.length 0) box.peerPublicKey box.secretKey] }
      else
        .raise (.assertion "crypto error: crypto_box_easy failed")
          { heap := w.heap ++ [(env.randombytes env.NONCE_LEN w.lib).1 ++
              (env.crypto_box_easy P (env.randombytes env.NONCE_LEN w.lib).1
                box.peerPublicKey box.secretKey).2]
            lib := (env.randombytes env.NONCE_LEN w.lib).2
            log := w.log ++ [Call.vector_new (size + env.PREFIX_LEN)] ++
              [Call.randombytes_buf (Ptr.mk w.heap.length 0) env.NONCE_LEN] ++
              [Call.crypto_box_easy (Ptr.mk w.heap.length env.NONCE_LEN) src size
                (Ptr.mk w.heap.length 0) box.peerPublicKey box.secretKey] } := by
  unfold CryptoBox.encrypt vector_new
  rw [size_add_of_lt env size env.PREFIX_LEN (by omega)]
  simp only [hfit, if_true, bind_ret]
  rw [encryptInto_fresh env box src size P w.heap w.lib _ hsrc hlen]
  by_cases hrc : (env.crypto_box_easy P (env.randombytes env.NONCE_LEN w.lib).1
      box.peerPublicKey box.secretKey).1 = 0
  · simp only [hrc, if_true, bind_ret]
  · simp only [hrc, if_false, bind_raise]

/-- What `decryptInto` does when `src` points to a readable frame `F` of
`size >= PREFIX_LEN` bytes in older memory, `dest` is a fresh vector of
`size - PREFIX_LEN` bytes, and what the primitive stores fits in it. -/
theorem decryptInto_fresh {σ : Type} (env : Env σ) (box : CryptoBox) (src : Ptr)
    (size : Nat) (F : List byte) (h : Heap) (lib : σ) (log : List Call)
    (hsrc : h.read src size = some F)
    (hge : env.PREFIX_LEN ≤ size) (hsize : size < 2 ^ env.w)
    (hfit : (env.crypto_box_open_easy (F.drop env.NONCE_LEN) (F.take env.NONCE_LEN)
      box.peerPublicKey box.secretKey).2.length ≤ size - env.PREFIX_LEN) :
    box.decryptInto env src (Ptr.mk h.length 0) size
        { heap := h ++ [List.replicate (size - env.PREFIX_LEN) 0], lib := lib, log := log } =
      if (env.crypto_box_open_easy (F.drop env.NONCE_LEN) (F.take env.NONCE_LEN)
          box.peerPublicKey box.secretKey).1 = 0 then
        .ret (size - env.PREFIX_LEN)
          { heap := h ++ [(env.crypto_box_open_easy (F.drop env.NONCE_LEN)
                (F.take env.NONCE_LEN) box.peerPublicKey box.secretKey).2 ++
              List.replicate (size - env.PREFIX_LEN -
                (env.crypto_box_open_easy (F.drop env.NONCE_LEN) (F.take env.NONCE_LEN)
                  box.peerPublicKey box.secretKey).2.length) 0]
            lib := lib
            log := log ++
              [Call.crypto_box_open_easy (Ptr.mk h.length 0) (src.add env.NONCE_LEN)
                (size - env.NONCE_LEN) src box.peerPublicKey box.secretKey] }
      else
        .raise (.assertion "crypto error: crypto_box_open_easy failed")
          { heap := h ++ [(env.crypto_box_open_easy (F.drop env.NONCE_LEN)
                (F.take env.NONCE_LEN) box.peerPublicKey box.secretKey).2 ++
              List.replicate (size - env.PREFIX_LEN -
                (env.crypto_box_open_easy (F.drop env.NONCE_LEN) (F.take env.NONCE_LEN)
                  box.peerPublicKey box.secretKey).2.length) 0]
            lib := lib
            log := log ++
              [Call.crypto_box_open_easy (Ptr.mk h.length 0) (src.add env.NONCE_LEN)
                (size - env.NONCE_LEN) src box.peerPublicKey box.secretKey] } := by
  have hN : env.NONCE_LEN ≤ size := by
    unfold Env.PREFIX_LEN at hge
    omega
  have hsplit : size = env.NONCE_LEN + (size - env.NONCE_LEN) := by omega
  rw [hsplit] at hsrc
  obtain ⟨hn, hc⟩ := read_split h src env.NONCE_LEN (size - env.NONCE_LEN) F hsrc
  generalize hr : env.crypto_box_open_easy (F.drop env.NONCE_LEN) (F.take env.NONCE_LEN)
    box.peerPublicKey box.secretKey = r at hfit ⊢
  rw [decryptInto_eq, if_neg (by omega), size_sub_of_le env size env.NONCE_LEN hN hsize,
    size_sub_of_le env size env.PREFIX_LEN hge hsize]
  simp only []
  rw [read_old h _ _ _ _ hc, read_old h _ _ _ _ hn]
  simp only [hr]
  rw [overlaps_fresh h src _ (F.take env.NONCE_LEN) hn]
  simp only [Bool.false_eq_true, if_false]
  rw [write_fresh h _ 0 r.2 (by simp; omega)]
  simp

/-- What `decrypt` does on a readable frame `F` of `size >= PREFIX_LEN` bytes
when the plaintext vector can be built and what the primitive stores fits. -/
theorem decrypt_eq {σ : Type} (env : Env σ) (box : CryptoBox) (src : Ptr)
    (size : Nat) (F : List byte) (w : World σ)
    (hsrc : w.heap.read src size = some F)
    (hge : env.PREFIX_LEN ≤ size) (hsize : size < 2 ^ env.w)
    (halloc : size - env.PREFIX_LEN ≤ env.max_size)
    (hfit : (env.crypto_box_open_easy (F.drop env.NONCE_LEN) (F.take env.NONCE_LEN)
      box.peerPublicKey box.secretKey).2.length ≤ size - env.PREFIX_LEN) :
    box.decrypt env src size w =
      if (env.crypto_box_open_easy (F.drop env.NONCE_LEN) (F.take env.NONCE_LEN)
          box.peerPublicKey box.secretKey).1 = 0 then
        .ret w.heap.length
          { heap := w.heap ++ [(env.crypto_box_open_easy (F.drop env.NONCE_LEN)
                (F.take env.NONCE_LEN) box.peerPublicKey box.secretKey).2 ++
              List.replicate (size - env.PREFIX_LEN -
                (env.crypto_box_open_easy (F.drop env.NONCE_LEN) (F.take env.NONCE_LEN)
                  box.peerPublicKey box.secretKey).2.length) 0]
            lib := w.lib
            log := w.log ++ [Call.vector_new (size - env.PREFIX_LEN)] ++
              [Call.crypto_box_open_easy (Ptr.mk w.heap.length 0) (src.add env.NONCE_LEN)
                (size - env.NONCE_LEN) src box.peerPublicKey box.secretKey] }
      else
        .raise (.assertion "crypto error: crypto_box_open_easy failed")
          { heap := w.heap ++ [(env.crypto_box_open_easy (F.drop env.NONCE_LEN)
                (F.take env.NONCE_LEN) box.peerPublicKey box.secretKey).2 ++
              List.replicate (size - env.PREFIX_LEN -
                (env.crypto_box_open_easy (F.drop env.NONCE_LEN) (F.take env.NONCE_LEN)
                  box.peerPublicKey box.secretKey).2.length) 0]
            lib := w.lib
            log := w.log ++ [Call.vector_new (size - env.PREFIX_LEN)] ++
              [Call.crypto_box_open_easy (Ptr.mk w.heap.length 0) (src.add env.NONCE_LEN)
                (size - env.NONCE_LEN) src box.peerPublicKey box.secretKey] } := by
  unfold CryptoBox.decrypt vector_new
  rw [size_sub_of_le env size env.PREFIX_LEN hge hsize]
  simp only [halloc, if_true, bind_ret]
  rw [decryptInto_fresh env box src size F w.heap w.lib _ hsrc hge hsize hfit]
  by_cases hrc : (env.crypto_box_open_easy (F.drop env.NONCE_LEN) (F.take env.NONCE_LEN)
      box.peerPublicKey box.secretKey).1 = 0
  · simp only [hrc, if_true, bind_ret]
  · simp only [hrc, if_false, bind_raise]

theorem getElem?_concat_length {α : Type} (l : List α) (a : α) :
    (l ++ [a])[l.length]? = some a := by
  simp

theorem read_whole (h : Heap) (b : Nat) (blk : List byte) (hb : h[b]? = some blk) :
    h.read (Ptr.mk b 0) blk.length = some blk := by
  unfold Heap.read
  simp [hb]

/-- What `decryptInto` does on a readable frame `F` of `size >= PREFIX_LEN`
bytes for any `dest` that has room for what the primitive stores and whose
stored bytes stay clear of the nonce at `src` (they may overlap the
ciphertext). -/
theorem decryptInto_ok {σ : Type} (env : Env σ) (box : CryptoBox) (src dest : Ptr)
    (size : Nat) (F : List byte) (w : World σ) (h1 : Heap)
    (hsrc : w.heap.read src size = some F)
    (hge : env.PREFIX_LEN ≤ size) (hsize : size < 2 ^ env.w)
    (hov : dest.overlaps (box.opened env F).2.length src env.NONCE_LEN = false)
    (hw : w.heap.write dest (box.opened env F).2 = some h1) :
    box.decryptInto env src dest size w =
      if (box.opened env F).1 = 0 then
        .ret (size - env.PREFIX_LEN)
          { w with
            heap := h1
            log := w.log ++
              [Call.crypto_box_open_easy dest (src.add env.NONCE_LEN) (size - env.NONCE_LEN)
                src box.peerPublicKey box.secretKey] }
      else
        .raise (.assertion "crypto error: crypto_box_open_easy failed")
          { w with
            heap := h1
            log := w.log ++
              [Call.crypto_box_open_easy dest (src.add env.NONCE_LEN) (size - env.NONCE_LEN)
                src box.peerPublicKey box.secretKey] } := by
  unfold CryptoBox.opened at *
  have hN : env.NONCE_LEN ≤ size := by
    unfold Env.PREFIX_LEN at hge
    omega
  have hsplit : size = env.NONCE_LEN + (size - env.NONCE_LEN) := by omega
  rw [hsplit] at hsrc
  obtain ⟨hn, hc⟩ := read_split w.heap src env.NONCE_LEN (size - env.NONCE_LEN) F hsrc
  rw [decryptInto_eq, if_neg (by omega), size_sub_of_le env size env.NONCE_LEN hN hsize,
    size_sub_of_le env size env.PREFIX_LEN hge hsize, hc, hn]
  simp only [hov, Bool.false_eq_true, if_false, hw]

theorem read_write_same (h : Heap) (p : Ptr) (bs : List byte) (h1 : Heap)
    (hw : h.write p bs = some h1) : h1.read p bs.length = some bs := by
  unfold Heap.write at hw
  unfold Heap.read
  cases p with
  | null => simp at hw
  | mk b o =>
    simp only at hw ⊢
    cases hb : h[b]? with
    | none => simp [hb] at hw
    | some blk =>
      simp only [hb] at hw
      by_cases hle : o + bs.length ≤ blk.length
      · simp only [hle, if_true, Option.some.injEq] at hw
        have hlt : b < h.length := by
          rcases Nat.lt_or_ge b h.length with hl | hl
          · exact hl
          · rw [List.getElem?_eq_none hl] at hb
            simp at hb
        have ho : (blk.take o).length = o := by
          rw [List.length_take]
          omega
        subst hw
        rw [List.getElem?_set_self hlt]
        simp only [List.length_append, List.length_take, List.length_drop]
        rw [if_pos (by omega), List.append_assoc, List.drop_left' ho, List.take_left' rfl]
      · simp [hle] at hw

/-- What `encryptInto` does for any `src` and `dest` (which may alias): `h1` is
memory after the nonce is stored at `dest`, `m` is the message as it reads in
`h1`, and `h2` is memory after the ciphertext is stored at `dest + NONCE_LEN`. -/
theorem encryptInto_ok {σ : Type} (env : Env σ) (box : CryptoBox) (src dest : Ptr)
    (size : Nat) (m : List byte) (w : World σ) (h1 h2 : Heap)
    (hw1 : w.heap.write dest (env.drawnNonce w) = some h1)
    (hm : h1.read src size = some m)
    (hw2 : h1.write (dest.add env.NONCE_LEN) (box.sealed env m (env.drawnNonce w)).2 = some h2) :
    box.encryptInto env src dest size w =
      if (box.sealed env m (env.drawnNonce w)).1 = 0 then
        .ret (env.size_add size env.PREFIX_LEN)
          { heap := h2
            lib := (env.randombytes env.NONCE_LEN w.lib).2
            log := w.log ++ [Call.randombytes_buf dest env.NONCE_LEN] ++
              [Call.crypto_box_easy (dest.add env.NONCE_LEN) src size dest
                box.peerPublicKey box.secretKey] }
      else
        .raise (.assertion "crypto error: crypto_box_easy failed")
          { heap := h2
            lib := (env.randombytes env.NONCE_LEN w.lib).2
            log := w.log ++ [Call.randombytes_buf dest env.NONCE_LEN] ++
              [Call.crypto_box_easy (dest.add env.NONCE_LEN) src size dest
                box.peerPublicKey box.secretKey] } := by
  unfold CryptoBox.sealed Env.drawnNonce at *
  have hn := read_write_same _ _ _ _ hw1
  rw [randombytes_length] at hn
  rw [encryptInto_eq, hw1]
  simp only [hm, hn, hw2]

/-- The world of an outcome that returns or raises in the same world. -/
theorem world_ite {σ α : Type} (c : Prop) [Decidable c] (a : α) (e : Exn) (W : World σ) :
    (if c then Outcome.ret a W else Outcome.raise e W).world = some W := by
  by_cases h : c <;> simp [h, Outcome.world]

/-- Once the length check has passed, every defined outcome of `decryptInto`
has logged exactly the call of the primitive. -/
theorem decryptInto_log_ge {σ : Type} (env : Env σ) (box : CryptoBox) (src dest : Ptr)
    (size : Nat) (w w' : World σ) (hge : env.PREFIX_LEN ≤ size)
    (h : (box.decryptInto env src dest size w).world = some w') :
    w'.log = w.log ++
      [Call.crypto_box_open_easy dest (src.add env.NONCE_LEN)
        (env.size_sub size env.NONCE_LEN) src box.peerPublicKey box.secretKey] := by
  rcases decryptInto_log env box src dest size w w' h with hl | hl
  · rw [decryptInto_eq, if_neg (by omega)] at h
    split at h
    · split at h
      · simp [Outcome.world] at h
      · split at h
        · simp [Outcome.world] at h
        · split at h <;> simp [Outcome.world] at h <;> simp [← h]
    · simp [Outcome.world] at h
  · exact hl

/-- When the frame vector can be built, every defined outcome of `encrypt` has
logged the vector, the draw of the nonce and the call of the primitive. -/
theorem encrypt_log {σ : Type} (env : Env σ) (box : CryptoBox) (src : Ptr) (size : Nat)
    (w w' : World σ) (h : (box.encrypt env src size w).world = some w')
    (hm : env.size_add size env.PREFIX_LEN ≤ env.max_size) :
    w'.log = w.log ++
      [Call.vector_new (env.size_add size env.PREFIX_LEN),
        Call.randombytes_buf (Ptr.mk w.heap.length 0) env.NONCE_LEN,
        Call.crypto_box_easy ((Ptr.mk w.heap.length 0).add env.NONCE_LEN) src size
          (Ptr.mk w.heap.length 0) box.peerPublicKey box.secretKey] := by
  unfold CryptoBox.encrypt vector_new at h
  simp only [hm, if_true, bind_ret] at h
  rw [world_of_relabel] at h
  have hl := encryptInto_log env box src _ size _ w' h
  simp only [List.append_assoc] at hl
  rw [hl]
  rfl

/-- When the plaintext vector can be built and the length check passes, every
defined outcome of `decrypt` has logged the vector and the call of the
primitive. -/
theorem decrypt_log {σ : Type} (env : Env σ) (box : CryptoBox) (src : Ptr) (size : Nat)
    (w w' : World σ) (h : (box.decrypt env src size w).world = some w')
    (hm : env.size_sub size env.PREFIX_LEN ≤ env.max_size) (hge : env.PREFIX_LEN ≤ size) :
    w'.log = w.log ++
      [Call.vector_new (env.size_sub size env.PREFIX_LEN),
        Call.crypto_box_open_easy (Ptr.mk w.heap.length 0) (src.add env.NONCE_LEN)
          (env.size_sub size env.NONCE_LEN) src box.peerPublicKey box.secretKey] := by
  unfold CryptoBox.decrypt vector_new at h
  simp only [hm, if_true, bind_ret] at h
  rw [world_of_relabel] at h
  have hl := decryptInto_log_ge env box src _ size _ w' hge h
  simp only [List.append_assoc] at hl
  rw [hl]
  rfl

/-! ## Properties of the code -/

/-- C9: the six packet classes of `general.hpp` carry the identifiers 21000 to
21005 in declaration order, the identifiers are pairwise distinct, each one is
below 65536 and therefore survives the conversion to the 16-bit wire field
unchanged, and a registry keyed by the wire identifier answers each of them
with exactly one class. -/
theorem C9_packet_ids_unique_u16 :
    ServerGeneralPacket.all.map ServerGeneralPacket.PACKET_ID =
        [21000, 21001, 21002, 21003, 21004, 21005] ∧
      (∀ p : ServerGeneralPacket, p ∈ ServerGeneralPacket.all) ∧
      Function.Injective ServerGeneralPacket.PACKET_ID ∧
      (∀ p : ServerGeneralPacket, p.PACKET_ID < 65536 ∧ p.wireId = p.PACKET_ID) ∧
      (∀ p : ServerGeneralPacket, ServerGeneralPacket.registry p.wireId = [p]) := by
  refine ⟨rfl, ?_, ?_, ?_, ?_⟩
  · intro p
    cases p <;> decide
  · intro p q h
    cases p <;> cases q <;> first | rfl | (exact absurd h (by decide))
  · intro p
    cases p <;> decide
  · intro p
    cases p <;> decide

/-- C10: `decrypt(src, size)` requests a vector of `(size - PREFIX_LEN) mod 2^w`
bytes before `decryptInto` checks the size. For `size < PREFIX_LEN` the
request is for `2^w - (PREFIX_LEN - size)` bytes: either the vector
constructor refuses it and `decrypt` ends there, or the vector is built and
only then the length check of `decryptInto` raises, with the request already
in the call log. For `size >= PREFIX_LEN` the request is for exactly
`size - PREFIX_LEN` bytes, and it is the first call `decrypt` makes. -/
theorem C10_decrypt_requests_vector_before_check {σ : Type} (env : Env σ) (box : CryptoBox)
    (src : Ptr) (size : Nat) (w : World σ)
    (hsize : size < 2 ^ env.w) (hpre : env.PREFIX_LEN ≤ 2 ^ env.w) :
    (size < env.PREFIX_LEN →
        env.size_sub size env.PREFIX_LEN = 2 ^ env.w - (env.PREFIX_LEN - size) ∧
        box.decrypt env src size w =
          if 2 ^ env.w - (env.PREFIX_LEN - size) ≤ env.max_size then
            .raise (.assertion "crypto error: message is too short")
              { w with
                heap := w.heap ++ [List.replicate (2 ^ env.w - (env.PREFIX_LEN - size)) 0]
                log := w.log ++ [Call.vector_new (2 ^ env.w - (env.PREFIX_LEN - size))] }
          else
            .raise .length_error
              { w with
                log := w.log ++ [Call.vector_new (2 ^ env.w - (env.PREFIX_LEN - size))] }) ∧
      (env.PREFIX_LEN ≤ size →
        env.size_sub size env.PREFIX_LEN = size - env.PREFIX_LEN ∧
        ∀ w' : World σ, (box.decrypt env src size w).world = some w' →
          w'.log.take (w.log.length + 1) =
            w.log ++ [Call.vector_new (size - env.PREFIX_LEN)]) := by
  constructor
  · intro hlt
    have e := size_sub_of_lt env size env.PREFIX_LEN hlt hpre
    refine ⟨e, ?_⟩
    unfold CryptoBox.decrypt vector_new
    simp only [e]
    by_cases hm : 2 ^ env.w - (env.PREFIX_LEN - size) ≤ env.max_size
    · simp only [hm, if_true, bind_ret]
      rw [decryptInto_short env box src _ size _ hlt]
      rfl
    · simp only [hm, if_false, bind_raise]
  · intro hge
    have e := size_sub_of_le env size env.PREFIX_LEN hge hsize
    refine ⟨e, ?_⟩
    intro w' hw'
    unfold CryptoBox.decrypt vector_new at hw'
    simp only [e] at hw'
    by_cases hm : size - env.PREFIX_LEN ≤ env.max_size
    · simp only [hm, if_true, bind_ret] at hw'
      rw [world_of_relabel] at hw'
      have hwo := hw'
      rcases decryptInto_log env box src _ size _ w' hwo with hl | hl
      · rw [hl]
        exact take_succ_append _ _ _
      · rw [hl, List.append_assoc]
        exact take_succ_append _ _ _
    · simp only [hm, if_false, bind_raise, Outcome.world, Option.some.injEq] at hw'
      rw [← hw']
      exact take_succ_append _ _ _

theorem C10_witness :
    3 < 2 ^ toyEnv.w ∧ toyEnv.PREFIX_LEN ≤ 2 ^ toyEnv.w ∧ 3 < toyEnv.PREFIX_LEN ∧
      toyEnv.size_sub 3 toyEnv.PREFIX_LEN = 2 ^ toyEnv.w - (toyEnv.PREFIX_LEN - 3) :=
  ⟨by decide, by decide, by decide,
    ((C10_decrypt_requests_vector_before_check toyEnv demoBoxB (Ptr.mk 0 0) 3 demoWorld
      (by decide) (by decide)).1 (by decide)).1⟩

/-- C2, at a failing input: on a 64-bit platform `decrypt` of a three-byte
buffer does not raise the "message is too short" error. It first asks for a
vector of `2^64 - 37` bytes, and the `std::length_error` of that request is
what the caller gets; `decryptInto` on the same buffer raises the crypto
error without touching anything. -/
theorem C2_decrypt_short_raises_length_error :
    demoBoxB.decrypt toyEnv (Ptr.mk 0 0) 3 demoWorld =
        .raise .length_error { demoWorld with log := [Call.vector_new (2 ^ 64 - 37)] } ∧
      demoBoxB.decryptInto toyEnv (Ptr.mk 0 0) (Ptr.mk 0 0) 3 demoWorld =
        .raise (.assertion "crypto error: message is too short") demoWorld := by
  constructor <;> decide

/-- C3, at a failing input: with the same keys and the same nonce,
`encryptInPlace` on a buffer that holds the plaintext 1, 2, 3 leaves a frame
that differs from the one `encrypt` returns for 1, 2, 3. Both report 43 bytes
and both frames start with the same nonce, but the in-place frame is the
seal of the first three bytes of the nonce, which overwrote the plaintext
before the primitive read it: the peer opens the in-place frame to 11, 48, 85
and the frame of `encrypt` to 1, 2, 3. -/
theorem C3_encryptInPlace_differs_from_encrypt :
    (demoBoxA.encryptInPlace toyEnv (Ptr.mk 0 0) 3 demoInPlaceWorld).world.map
        (fun w => w.heap[0]?) =
        some (some (demoNonce ++
          (toySeal [11, 48, 85] demoNonce demoBoxA.peerPublicKey demoBoxA.secretKey).2)) ∧
      (demoBoxA.encrypt toyEnv (Ptr.mk 0 0) 3 demoInPlaceWorld).world.map
        (fun w => w.heap[1]?) =
        some (some (demoNonce ++
          (toySeal [1, 2, 3] demoNonce demoBoxA.peerPublicKey demoBoxA.secretKey).2)) ∧
      (toySeal [11, 48, 85] demoNonce demoBoxA.peerPublicKey demoBoxA.secretKey).2 ≠
        (toySeal [1, 2, 3] demoNonce demoBoxA.peerPublicKey demoBoxA.secretKey).2 ∧
      (∃ w1, demoBoxA.encryptInPlace toyEnv (Ptr.mk 0 0) 3 demoInPlaceWorld = .ret 43 w1) ∧
      (∃ w2, demoBoxA.encrypt toyEnv (Ptr.mk 0 0) 3 demoInPlaceWorld = .ret 1 w2 ∧
        (w2.heap[1]?).map List.length = some 43) ∧
      demoBoxB.opened toyEnv (demoNonce ++
          (toySeal [11, 48, 85] demoNonce demoBoxA.peerPublicKey demoBoxA.secretKey).2) =
        (0, [11, 48, 85]) ∧
      demoBoxB.opened toyEnv (demoNonce ++
          (toySeal [1, 2, 3] demoNonce demoBoxA.peerPublicKey demoBoxA.secretKey).2) =
        (0, [1, 2, 3]) := by
  refine ⟨by decide, by decide, by decide, ⟨_, rfl⟩, ⟨_, rfl, by decide⟩, by decide, by decide⟩

/-- C8: the constructor raises if and only if `sodium_init` returns -1 or
`crypto_box_keypair` returns a non-zero result (so a `sodium_init` result of 1
is accepted). It raises the `sodium_init` error in the first case, before any
keypair is generated, and the keypair error in the second. When neither
happens: with a null key it returns the generated keypair, leaves the peer key
as the storage held it and calls nothing after `crypto_box_keypair` (no
`memcpy`, so `setPeerKey` did not run); with a non-null key that points to
`crypto_box_PUBLICKEYBYTES` readable bytes `k` it returns the keypair with
peer public key `k`. -/
theorem C8_constructor_fails_iff_init_or_keypair_fails {σ : Type} (env : Env σ)
    (raw : CryptoBox) (key : Ptr) (w : World σ) :
    ((∃ e w', CryptoBox.new env raw key w = .raise e w') ↔
        ((env.sodium_init w.lib).1 = -1 ∨
          (env.crypto_box_keypair (env.sodium_init w.lib).2).1.1 ≠ 0)) ∧
      ((env.sodium_init w.lib).1 = -1 →
        CryptoBox.new env raw key w =
          .raise (.assertion "crypto error: sodium_init failed")
            { w with lib := (env.sodium_init w.lib).2, log := w.log ++ [Call.sodium_init] }) ∧
      ((env.sodium_init w.lib).1 ≠ -1 →
        (env.crypto_box_keypair (env.sodium_init w.lib).2).1.1 ≠ 0 →
        CryptoBox.new env raw key w =
          .raise (.assertion "crypto error: crypto_box_keypair failed")
            { w with
              lib := (env.crypto_box_keypair (env.sodium_init w.lib).2).2
              log := w.log ++ [Call.sodium_init, Call.crypto_box_keypair] }) ∧
      ((env.sodium_init w.lib).1 ≠ -1 →
        (env.crypto_box_keypair (env.sodium_init w.lib).2).1.1 = 0 →
        (key = Ptr.null →
          CryptoBox.new env raw key w =
            .ret
              { publicKey := (env.crypto_box_keypair (env.sodium_init w.lib).2).1.2.1
                secretKey := (env.crypto_box_keypair (env.sodium_init w.lib).2).1.2.2
                peerPublicKey := raw.peerPublicKey }
              { w with
                lib := (env.crypto_box_keypair (env.sodium_init w.lib).2).2
                log := w.log ++ [Call.sodium_init, Call.crypto_box_keypair] }) ∧
        (∀ k : List byte, key ≠ Ptr.null →
          w.heap.read key env.crypto_box_PUBLICKEYBYTES = some k →
          CryptoBox.new env raw key w =
            .ret
              { publicKey := (env.crypto_box_keypair (env.sodium_init w.lib).2).1.2.1
                secretKey := (env.crypto_box_keypair (env.sodium_init w.lib).2).1.2.2
                peerPublicKey := k }
              { w with
                lib := (env.crypto_box_keypair (env.sodium_init w.lib).2).2
                log := w.log ++ [Call.sodium_init, Call.crypto_box_keypair,
                  Call.memcpy key env.crypto_box_PUBLICKEYBYTES] })) := by
  refine ⟨?_, ?_, ?_, ?_⟩
  · rw [new_eq]
    by_cases hi : (env.sodium_init w.lib).1 = -1
    · simp only [hi, if_true, true_or, iff_true]
      exact ⟨_, _, rfl⟩
    · by_cases hk : (env.crypto_box_keypair (env.sodium_init w.lib).2).1.1 = 0
      · simp only [hi, hk, if_true, if_false, ne_eq, not_true_eq_false, or_self, iff_false]
        rintro ⟨e, w', h⟩
        by_cases hn : key = Ptr.null
        · simp [hn] at h
        · simp only [ne_eq, hn, not_false_eq_true, if_true] at h
          unfold CryptoBox.setPeerKey at h
          split at h <;> simp at h
      · simp only [hi, hk, if_false, ne_eq, not_false_eq_true, or_true, iff_true]
        exact ⟨_, _, rfl⟩
  · intro hi
    rw [new_eq, if_pos hi]
  · intro hi hk
    rw [new_eq, if_neg hi, if_neg hk]
    simp
  · intro hi hk
    constructor
    · intro hn
      rw [new_eq, if_neg hi, if_pos hk, if_neg (by simp [hn])]
      simp
    · intro k hn hr
      rw [new_eq, if_neg hi, if_pos hk, if_pos hn]
      unfold CryptoBox.setPeerKey
      simp [hr]

theorem C8_witness :
    (toyEnv.sodium_init { inited := true, seed := 7 }).1 = 1 ∧
      CryptoBox.new toyEnv demoBoxA Ptr.null
          { heap := [], lib := { inited := true, seed := 7 }, log := [] } =
        .ret
          { publicKey := List.replicate 32 7, secretKey := List.replicate 32 7,
            peerPublicKey := demoBoxA.peerPublicKey }
          { heap := [], lib := { inited := true, seed := 8 },
            log := [Call.sodium_init, Call.crypto_box_keypair] } :=
  ⟨by decide,
    ((C8_constructor_fails_iff_init_or_keypair_fails toyEnv demoBoxA Ptr.null
      { heap := [], lib := { inited := true, seed := 7 }, log := [] }).2.2.2
        (by decide) (by decide)).1 rfl⟩

/-- C7: when `k1` and `k2` each point to `crypto_box_PUBLICKEYBYTES` readable
bytes (`key1`, `key2`), `setPeerKey(k1)` followed by `setPeerKey(k2)` returns,
the stored peer key is `key2`, the local public and secret keys are as before
(so `getPublicKey` answers as before), and memory and the library state are
untouched. From then on each of `encryptInto`, `decryptInto`, `encrypt` and
`decrypt` calls the primitive with `key2` as the peer key and the unchanged
secret key:
* `encryptInto` has a defined outcome whenever `dest` has room for the frame
  and `src` is readable, and every defined outcome has logged the draw of the
  nonce and then `crypto_box_easy` with `key2`;
* `decryptInto` raises "message is too short" without any call when
  `size < PREFIX_LEN`; for `size >= PREFIX_LEN` it has a defined outcome
  whenever the frame is readable and `dest` has room clear of the nonce, and
  every defined outcome has logged `crypto_box_open_easy` with `key2`;
* `encrypt` has a defined outcome on a readable plaintext whose frame fits a
  vector, and every defined outcome in which the vector was built has logged
  `crypto_box_easy` with `key2`;
* `decrypt` has a defined outcome on a readable frame of `size >= PREFIX_LEN`,
  and every defined outcome in which the vector was built and the length check
  passed has logged `crypto_box_open_easy` with `key2`;
* no call of the primitive logged by `encrypt` or `decrypt` carries any other
  peer key. -/
theorem C7_setPeerKey_last_call_wins {σ : Type} (env : Env σ) (box : CryptoBox)
    (k1 k2 : Ptr) (key1 key2 : List byte) (w : World σ)
    (h1 : w.heap.read k1 env.crypto_box_PUBLICKEYBYTES = some key1)
    (h2 : w.heap.read k2 env.crypto_box_PUBLICKEYBYTES = some key2) :
    ∃ box1 w1 box2 w2,
      box.setPeerKey env k1 w = .ret box1 w1 ∧
      box1.setPeerKey env k2 w1 = .ret box2 w2 ∧
      box1.peerPublicKey = key1 ∧
      box2.peerPublicKey = key2 ∧
      box2.publicKey = box.publicKey ∧
      box2.secretKey = box.secretKey ∧
      box2.getPublicKey = box.getPublicKey ∧
      w2.heap = w.heap ∧ w2.lib = w.lib ∧
      -- encryptInto: every defined outcome
      (∀ (src dest : Ptr) (size : Nat) (u u' : World σ),
        (box2.encryptInto env src dest size u).world = some u' →
          u'.log = u.log ++ [Call.randombytes_buf dest env.NONCE_LEN] ++
            [Call.crypto_box_easy (dest.add env.NONCE_LEN) src size dest key2 box.secretKey]) ∧
      -- encryptInto: the outcome is defined
      (∀ (src dest : Ptr) (size : Nat) (m : List byte) (u : World σ) (g1 g2 : Heap),
        u.heap.write dest (env.drawnNonce u) = some g1 →
        g1.read src size = some m →
        g1.write (dest.add env.NONCE_LEN)
          (env.crypto_box_easy m (env.drawnNonce u) key2 box.secretKey).2 = some g2 →
        ∃ u' : World σ,
          (box2.encryptInto env src dest size u).world = some u' ∧
          u'.log = u.log ++ [Call.randombytes_buf dest env.NONCE_LEN] ++
            [Call.crypto_box_easy (dest.add env.NONCE_LEN) src size dest key2 box.secretKey]) ∧
      -- decryptInto: the length check fails
      (∀ (src dest : Ptr) (size : Nat) (u : World σ), size < env.PREFIX_LEN →
        box2.decryptInto env src dest size u =
          .raise (.assertion "crypto error: message is too short") u) ∧
      -- decryptInto: every defined outcome past the length check
      (∀ (src dest : Ptr) (size : Nat) (u u' : World σ), env.PREFIX_LEN ≤ size →
        (box2.decryptInto env src dest size u).world = some u' →
          u'.log = u.log ++
            [Call.crypto_box_open_easy dest (src.add env.NONCE_LEN)
              (env.size_sub size env.NONCE_LEN) src key2 box.secretKey]) ∧
      -- decryptInto: the outcome is defined
      (∀ (src dest : Ptr) (size : Nat) (F : List byte) (u : World σ) (g1 : Heap),
        u.heap.read src size = some F →
        env.PREFIX_LEN ≤ size → size < 2 ^ env.w →
        dest.overlaps (env.crypto_box_open_easy (F.drop env.NONCE_LEN) (F.take env.NONCE_LEN)
          key2 box.secretKey).2.length src env.NONCE_LEN = false →
        u.heap.write dest (env.crypto_box_open_easy (F.drop env.NONCE_LEN)
          (F.take env.NONCE_LEN) key2 box.secretKey).2 = some g1 →
        ∃ u' : World σ,
          (box2.decryptInto env src dest size u).world = some u' ∧
          u'.log = u.log ++
            [Call.crypto_box_open_easy dest (src.add env.NONCE_LEN) (size - env.NONCE_LEN)
              src key2 box.secretKey]) ∧
      -- encrypt: every defined outcome in which the vector was built
      (∀ (src : Ptr) (size : Nat) (u u' : World σ),
        (box2.encrypt env src size u).world = some u' →
        env.size_add size env.PREFIX_LEN ≤ env.max_size →
          u'.log = u.log ++
            [Call.vector_new (env.size_add size env.PREFIX_LEN),
              Call.randombytes_buf (Ptr.mk u.heap.length 0) env.NONCE_LEN,
              Call.crypto_box_easy ((Ptr.mk u.heap.length 0).add env.NONCE_LEN) src size
                (Ptr.mk u.heap.length 0) key2 box.secretKey]) ∧
      -- encrypt: the outcome is defined
      (∀ (src : Ptr) (size : Nat) (P : List byte) (u : World σ),
        u.heap.read src size = some P →
        size + env.PREFIX_LEN ≤ env.max_size → env.max_size < 2 ^ env.w →
        (env.crypto_box_easy P (env.drawnNonce u) key2 box.secretKey).2.length =
          size + env.MAC_LEN →
        ∃ u' : World σ,
          (box2.encrypt env src size u).world = some u' ∧
          u'.log = u.log ++
            [Call.vector_new (size + env.PREFIX_LEN),
              Call.randombytes_buf (Ptr.mk u.heap.length 0) env.NONCE_LEN,
              Call.crypto_box_easy (Ptr.mk u.heap.length env.NONCE_LEN) src size
                (Ptr.mk u.heap.length 0) key2 box.secretKey]) ∧
      -- decrypt: every defined outcome in which the vector was built and the check passed
      (∀ (src : Ptr) (size : Nat) (u u' : World σ),
        (box2.decrypt env src size u).world = some u' →
        env.size_sub size env.PREFIX_LEN ≤ env.max_size → env.PREFIX_LEN ≤ size →
          u'.log = u.log ++
            [Call.vector_new (env.size_sub size env.PREFIX_LEN),
              Call.crypto_box_open_easy (Ptr.mk u.heap.length 0) (src.add env.NONCE_LEN)
                (env.size_sub size env.NONCE_LEN) src key2 box.secretKey]) ∧
      -- decrypt: the outcome is defined
      (∀ (src : Ptr) (size : Nat) (F : List byte) (u : World σ),
        u.heap.read src size = some F →
        env.PREFIX_LEN ≤ size → size < 2 ^ env.w →
        size - env.PREFIX_LEN ≤ env.max_size →
        (env.crypto_box_open_easy (F.drop env.NONCE_LEN) (F.take env.NONCE_LEN)
          key2 box.secretKey).2.length ≤ size - env.PREFIX_LEN →
        ∃ u' : World σ,
          (box2.decrypt env src size u).world = some u' ∧
          u'.log = u.log ++
            [Call.vector_new (size - env.PREFIX_LEN),
              Call.crypto_box_open_easy (Ptr.mk u.heap.length 0) (src.add env.NONCE_LEN)
                (size - env.NONCE_LEN) src key2 box.secretKey]) ∧
      -- encrypt and decrypt: no other peer key in any defined outcome
      (∀ (src : Ptr) (size : Nat) (u u' : World σ),
        (box2.encrypt env src size u).world = some u' →
          ∀ c ∈ u'.log.drop u.log.length, c.peerKey = none ∨ c.peerKey = some key2) ∧
      (∀ (src : Ptr) (size : Nat) (u u' : World σ),
        (box2.decrypt env src size u).world = some u' →
          ∀ c ∈ u'.log.drop u.log.length, c.peerKey = none ∨ c.peerKey = some key2) := by
  refine ⟨{ box with peerPublicKey := key1 },
    { w with log := w.log ++ [Call.memcpy k1 env.crypto_box_PUBLICKEYBYTES] },
    { box with peerPublicKey := key2 },
    { w with log := w.log ++ [Call.memcpy k1 env.crypto_box_PUBLICKEYBYTES] ++
        [Call.memcpy k2 env.crypto_box_PUBLICKEYBYTES] },
    ?_, ?_, rfl, rfl, rfl, rfl, rfl, rfl, rfl, ?_, ?_, ?_, ?_, ?_, ?_, ?_, ?_, ?_, ?_, ?_⟩
  · unfold CryptoBox.setPeerKey
    rw [h1]
  · unfold CryptoBox.setPeerKey
    simp only [h2]
  · intro src dest size u u' h
    exact encryptInto_log env _ src dest size u u' h
  · intro src dest size m u g1 g2 hw1 hm hw2
    have he := encryptInto_ok env { box with peerPublicKey := key2 } src dest size m u g1 g2
      hw1 hm hw2
    rw [he]
    exact ⟨_, world_ite _ _ _ _, rfl⟩
  · intro src dest size u hlt
    exact decryptInto_short env _ src dest size u hlt
  · intro src dest size u u' hge h
    exact decryptInto_log_ge env _ src dest size u u' hge h
  · intro src dest size F u g1 hsrc hge hsize hov hw
    have hd := decryptInto_ok env { box with peerPublicKey := key2 } src dest size F u g1
      hsrc hge hsize hov hw
    rw [hd]
    exact ⟨_, world_ite _ _ _ _, rfl⟩
  · intro src size u u' h hm
    exact encrypt_log env _ src size u u' h hm
  · intro src size P u hsrc hfit hmax hlen
    have he := encrypt_eq env { box with peerPublicKey := key2 } src size P u hsrc hfit hmax
      hlen
    rw [he]
    refine ⟨_, world_ite _ _ _ _, ?_⟩
    simp
  · intro src size u u' h hm hge
    exact decrypt_log env _ src size u u' h hm hge
  · intro src size F u hsrc hge hsize halloc hfit
    have hd := decrypt_eq env { box with peerPublicKey := key2 } src size F u hsrc hge hsize
      halloc hfit
    rw [hd]
    refine ⟨_, world_ite _ _ _ _, ?_⟩
    simp
  · intro src size u u' h
    exact encrypt_peerKey env _ src size u u' h
  · intro src size u u' h
    exact decrypt_peerKey env _ src size u u' h

theorem C7_witness :
    demoWorld.heap.read (Ptr.mk 0 0) 2 = some [1, 2] ∧
      demoWorld.heap.read (Ptr.mk 0 1) 2 = some [2, 3] ∧
      ∃ box1 w1 box2 w2,
        demoBoxA.setPeerKey { toyEnv with crypto_box_PUBLICKEYBYTES := 2 } (Ptr.mk 0 0)
            demoWorld = .ret box1 w1 ∧
          box1.setPeerKey { toyEnv with crypto_box_PUBLICKEYBYTES := 2 } (Ptr.mk 0 1) w1 =
            .ret box2 w2 ∧
          box2.peerPublicKey = [2, 3] ∧ box2.publicKey = demoBoxA.publicKey := by
  refine ⟨by decide, by decide, ?_⟩
  obtain ⟨box1, w1, box2, w2, a, b, _, c, d, _⟩ :=
    C7_setPeerKey_last_call_wins { toyEnv with crypto_box_PUBLICKEYBYTES := 2 } demoBoxA
      (Ptr.mk 0 0) (Ptr.mk 0 1) [1, 2] [2, 3] demoWorld (by decide) (by decide)
  exact ⟨box1, w1, box2, w2, a, b, c, d⟩

/-- C4: when `src` points to `size` readable bytes `P`, the frame fits a vector
and the primitive succeeds (return code 0, `size + MAC_LEN` bytes stored),
`encrypt` returns a new vector whose content is the nonce drawn for this call
followed by the primitive's ciphertext of `P` under that nonce, the stored
peer public key and the local secret key. The vector has `size + PREFIX_LEN`
bytes, its first `NONCE_LEN` bytes are the nonce, the remaining
`size + MAC_LEN` bytes are the ciphertext, and the `encryptInto` call that
fills it returns `size + PREFIX_LEN`; so does `encryptInto` for every
destination that has room for the frame and leaves the message readable once
the nonce is stored. -/
theorem C4_encrypt_frame_shape {σ : Type} (env : Env σ) (box : CryptoBox) (src : Ptr)
    (size : Nat) (P : List byte) (w : World σ)
    (hsrc : w.heap.read src size = some P)
    (hfit : size + env.PREFIX_LEN ≤ env.max_size) (hmax : env.max_size < 2 ^ env.w)
    (hrc : (box.sealed env P (env.drawnNonce w)).1 = 0)
    (hlen : (box.sealed env P (env.drawnNonce w)).2.length = size + env.MAC_LEN) :
    ∃ w' : World σ,
      box.encrypt env src size w = .ret w.heap.length w' ∧
      w'.heap[w.heap.length]? =
        some (env.drawnNonce w ++ (box.sealed env P (env.drawnNonce w)).2) ∧
      (env.drawnNonce w ++ (box.sealed env P (env.drawnNonce w)).2).length =
        size + env.PREFIX_LEN ∧
      (env.drawnNonce w ++ (box.sealed env P (env.drawnNonce w)).2).take env.NONCE_LEN =
        env.drawnNonce w ∧
      (env.drawnNonce w ++ (box.sealed env P (env.drawnNonce w)).2).drop env.NONCE_LEN =
        (box.sealed env P (env.drawnNonce w)).2 ∧
      P.length = size ∧
      box.encryptInto env src (Ptr.mk w.heap.length 0) size
          { heap := w.heap ++ [List.replicate (size + env.PREFIX_LEN) 0], lib := w.lib,
            log := w.log ++ [Call.vector_new (size + env.PREFIX_LEN)] } =
        .ret (size + env.PREFIX_LEN) w' ∧
      (∀ (dest : Ptr) (h1 h2 : Heap),
        w.heap.write dest (env.drawnNonce w) = some h1 →
        h1.read src size = some P →
        h1.write (dest.add env.NONCE_LEN) (box.sealed env P (env.drawnNonce w)).2 = some h2 →
        box.encryptInto env src dest size w =
          .ret (size + env.PREFIX_LEN)
            { heap := h2
              lib := (env.randombytes env.NONCE_LEN w.lib).2
              log := w.log ++ [Call.randombytes_buf dest env.NONCE_LEN] ++
                [Call.crypto_box_easy (dest.add env.NONCE_LEN) src size dest
                  box.peerPublicKey box.secretKey] }) := by
  have hgen : ∀ (dest : Ptr) (h1 h2 : Heap),
      w.heap.write dest (env.drawnNonce w) = some h1 →
      h1.read src size = some P →
      h1.write (dest.add env.NONCE_LEN) (box.sealed env P (env.drawnNonce w)).2 = some h2 →
      box.encryptInto env src dest size w =
        .ret (size + env.PREFIX_LEN)
          { heap := h2
            lib := (env.randombytes env.NONCE_LEN w.lib).2
            log := w.log ++ [Call.randombytes_buf dest env.NONCE_LEN] ++
              [Call.crypto_box_easy (dest.add env.NONCE_LEN) src size dest
                box.peerPublicKey box.secretKey] } := by
    intro dest h1 h2 hw1 hm hw2
    rw [encryptInto_ok env box src dest size P w h1 h2 hw1 hm hw2, if_pos hrc,
      size_add_of_lt env size env.PREFIX_LEN (by omega)]
  unfold CryptoBox.sealed Env.drawnNonce at *
  have hnl := randombytes_length env env.NONCE_LEN w.lib
  refine ⟨
    { heap := w.heap ++ [(env.randombytes env.NONCE_LEN w.lib).1 ++
        (env.crypto_box_easy P (env.randombytes env.NONCE_LEN w.lib).1
          box.peerPublicKey box.secretKey).2],
      lib := (env.randombytes env.NONCE_LEN w.lib).2,
      log := w.log ++ [Call.vector_new (size + env.PREFIX_LEN)] ++
        [Call.randombytes_buf (Ptr.mk w.heap.length 0) env.NONCE_LEN] ++
        [Call.crypto_box_easy (Ptr.mk w.heap.length env.NONCE_LEN) src size
          (Ptr.mk w.heap.length 0) box.peerPublicKey box.secretKey] },
    ?_, ?_, ?_, ?_, ?_, read_length _ _ _ _ hsrc, ?_, hgen⟩
  · rw [encrypt_eq env box src size P w hsrc hfit hmax hlen, if_pos hrc]
  · simp
  · rw [List.length_append, hnl, hlen]
    unfold Env.PREFIX_LEN
    omega
  · rw [List.take_left' hnl]
  · rw [List.drop_left' hnl]
  · rw [encryptInto_fresh env box src size P w.heap w.lib _ hsrc hlen, if_pos hrc,
      size_add_of_lt env size env.PREFIX_LEN (by omega)]

theorem C4_witness :
    demoWorld.heap.read (Ptr.mk 0 0) 3 = some [1, 2, 3] ∧
      demoBoxA.sealed toyEnv [1, 2, 3] (toyEnv.drawnNonce demoWorld) =
        (0, [13, 13, 13, 13, 13, 13, 13, 13, 13, 13, 13, 13, 13, 13, 13, 13, 6, 5, 4]) ∧
      ∃ w' : World ToyLib,
        demoBoxA.encrypt toyEnv (Ptr.mk 0 0) 3 demoWorld = .ret 1 w' ∧
          w'.heap[1]? = some (demoNonce ++
            [13, 13, 13, 13, 13, 13, 13, 13, 13, 13, 13, 13, 13, 13, 13, 13, 6, 5, 4]) := by
  refine ⟨by decide, by decide, ?_⟩
  obtain ⟨w', h1, h2, _⟩ :=
    C4_encrypt_frame_shape toyEnv demoBoxA (Ptr.mk 0 0) 3 [1, 2, 3] demoWorld
      (by decide) (by decide) (by decide) (by decide) (by decide)
  refine ⟨w', h1, ?_⟩
  rw [show (1 : Nat) = demoWorld.heap.length from rfl, h2]
  decide

/-- C6: on a readable frame `F` of `size >= PREFIX_LEN` bytes that the
primitive authenticates (return code 0, output within `size - PREFIX_LEN`
bytes), `decryptInto` returns `size - PREFIX_LEN` for every destination that
has room for the output and whose stored bytes share no byte with the nonce
at `src`, and `decrypt` returns a new vector of exactly
`size - PREFIX_LEN` bytes that starts with the primitive's output (the empty
vector when `size = PREFIX_LEN`). The primitive is called once, with the
ciphertext pointer `src + NONCE_LEN`, the ciphertext length
`size - NONCE_LEN` and the nonce pointer `src`; the bytes it is given are the
frame without its first `NONCE_LEN` bytes. -/
theorem C6_decrypt_length {σ : Type} (env : Env σ) (box : CryptoBox) (src : Ptr)
    (size : Nat) (F : List byte) (w : World σ)
    (hsrc : w.heap.read src size = some F)
    (hge : env.PREFIX_LEN ≤ size) (hsize : size < 2 ^ env.w)
    (halloc : size - env.PREFIX_LEN ≤ env.max_size)
    (hrc : (box.opened env F).1 = 0)
    (hfit : (box.opened env F).2.length ≤ size - env.PREFIX_LEN) :
    (∀ (dest : Ptr) (h1 : Heap),
      dest.overlaps (box.opened env F).2.length src env.NONCE_LEN = false →
      w.heap.write dest (box.opened env F).2 = some h1 →
      box.decryptInto env src dest size w =
        .ret (size - env.PREFIX_LEN)
          { w with
            heap := h1
            log := w.log ++
              [Call.crypto_box_open_easy dest (src.add env.NONCE_LEN) (size - env.NONCE_LEN)
                src box.peerPublicKey box.secretKey] }) ∧
      ∃ w' : World σ,
        box.decrypt env src size w = .ret w.heap.length w' ∧
        w'.heap[w.heap.length]? =
          some ((box.opened env F).2 ++
            List.replicate (size - env.PREFIX_LEN - (box.opened env F).2.length) 0) ∧
        (w'.heap[w.heap.length]?).map List.length = some (size - env.PREFIX_LEN) ∧
        (size = env.PREFIX_LEN → w'.heap[w.heap.length]? = some []) ∧
        w'.log = w.log ++
          [Call.vector_new (size - env.PREFIX_LEN),
            Call.crypto_box_open_easy (Ptr.mk w.heap.length 0) (src.add env.NONCE_LEN)
              (size - env.NONCE_LEN) src box.peerPublicKey box.secretKey] ∧
        w.heap.read (src.add env.NONCE_LEN) (size - env.NONCE_LEN) =
          some (F.drop env.NONCE_LEN) ∧
        (F.drop env.NONCE_LEN).length = size - env.NONCE_LEN := by
  have hFl : F.length = size := read_length _ _ _ _ hsrc
  have hN : env.NONCE_LEN ≤ size := by
    unfold Env.PREFIX_LEN at hge
    omega
  constructor
  · intro dest h1 hov hw
    rw [decryptInto_ok env box src dest size F w h1 hsrc hge hsize hov hw, if_pos hrc]
  · have hd := decrypt_eq env box src size F w hsrc hge hsize halloc hfit
    unfold CryptoBox.opened at *
    rw [if_pos hrc] at hd
    refine ⟨_, hd, ?_, ?_, ?_, ?_, ?_, ?_⟩
    · simp
    · simp
      omega
    · intro he
      have h0 : (env.crypto_box_open_easy (F.drop env.NONCE_LEN) (F.take env.NONCE_LEN)
          box.peerPublicKey box.secretKey).2 = [] := by
        apply List.eq_nil_of_length_eq_zero
        omega
      simp [h0, he]
    · simp
    · have hsplit : size = env.NONCE_LEN + (size - env.NONCE_LEN) := by omega
      have hsrc' := hsrc
      rw [hsplit] at hsrc'
      exact (read_split w.heap src env.NONCE_LEN (size - env.NONCE_LEN) F hsrc').2
    · rw [List.length_drop, hFl]

theorem C6_witness :
    demoFrameWorld.heap.read (Ptr.mk 0 0) 43 = some demoFrame ∧
      demoBoxB.opened toyEnv demoFrame = (0, [1, 2, 3]) ∧
      ∃ w' : World ToyLib,
        demoBoxB.decrypt toyEnv (Ptr.mk 0 0) 43 demoFrameWorld = .ret 2 w' ∧
          w'.heap[2]? = some [1, 2, 3] := by
  refine ⟨by decide, by decide, ?_⟩
  obtain ⟨w', h1, h2, _⟩ :=
    (C6_decrypt_length toyEnv demoBoxB (Ptr.mk 0 0) 43 demoFrame demoFrameWorld
      (by decide) (by decide) (by decide) (by decide) (by decide) (by decide)).2
  refine ⟨w', h1, ?_⟩
  rw [show (2 : Nat) = demoFrameWorld.heap.length from rfl, h2]
  decide

/-- C5: on a readable frame `F` of `size >= PREFIX_LEN` bytes (with room for
the plaintext vector, and a primitive that stays inside it): if the
primitive's open reports failure (a non-zero return code) then `decrypt` and
`decryptToString` raise the crypto error "crypto_box_open_easy failed" and
return no value at all; if it reports success both return; and `decrypt`
raises if and only if the primitive reports failure. -/
theorem C5_authentication_failure_raises {σ : Type} (env : Env σ) (box : CryptoBox)
    (src : Ptr) (size : Nat) (F : List byte) (w : World σ)
    (hsrc : w.heap.read src size = some F)
    (hge : env.PREFIX_LEN ≤ size) (hsize : size < 2 ^ env.w)
    (halloc : size - env.PREFIX_LEN ≤ env.max_size)
    (hfit : (box.opened env F).2.length ≤ size - env.PREFIX_LEN) :
    ((box.opened env F).1 ≠ 0 →
        (∃ w' : World σ,
          box.decrypt env src size w =
              .raise (.assertion "crypto error: crypto_box_open_easy failed") w' ∧
            box.decryptToString env src size w =
              .raise (.assertion "crypto error: crypto_box_open_easy failed") w') ∧
          (∀ v w', box.decrypt env src size w ≠ .ret v w') ∧
          (∀ v w', box.decryptToString env src size w ≠ .ret v w')) ∧
      ((box.opened env F).1 = 0 →
        ∃ w' : World σ,
          box.decrypt env src size w = .ret w.heap.length w' ∧
            ∃ str, box.decryptToString env src size w = .ret str w' ∧
              w'.heap[w.heap.length]? = some str) ∧
      ((∃ e w', box.decrypt env src size w = .raise e w') ↔ (box.opened env F).1 ≠ 0) := by
  have hd := decrypt_eq env box src size F w hsrc hge hsize halloc hfit
  unfold CryptoBox.opened at *
  refine ⟨?_, ?_, ?_⟩
  · intro hrc
    rw [if_neg hrc] at hd
    refine ⟨⟨_, hd, ?_⟩, ?_, ?_⟩
    · unfold CryptoBox.decryptToString
      rw [hd]
      rfl
    · intro v w'
      rw [hd]
      simp
    · intro v w'
      unfold CryptoBox.decryptToString
      rw [hd]
      simp
  · intro hrc
    rw [if_pos hrc] at hd
    refine ⟨_, hd, (env.crypto_box_open_easy (F.drop env.NONCE_LEN) (F.take env.NONCE_LEN)
        box.peerPublicKey box.secretKey).2 ++
      List.replicate (size - env.PREFIX_LEN -
        (env.crypto_box_open_easy (F.drop env.NONCE_LEN) (F.take env.NONCE_LEN)
          box.peerPublicKey box.secretKey).2.length) 0, ?_, ?_⟩
    · unfold CryptoBox.decryptToString
      rw [hd]
      simp
    · simp
  · by_cases hrc : (env.crypto_box_open_easy (F.drop env.NONCE_LEN) (F.take env.NONCE_LEN)
        box.peerPublicKey box.secretKey).1 = 0
    · rw [if_pos hrc] at hd
      rw [hd]
      simp [hrc]
    · rw [if_neg hrc] at hd
      rw [hd]
      simp only [ne_eq, hrc, not_false_eq_true, iff_true]
      exact ⟨_, _, rfl⟩

theorem C5_witness :
    demoFrameWorld.heap.read (Ptr.mk 1 0) 43 = some demoTampered ∧
      demoBoxB.opened toyEnv demoTampered = (-1, []) ∧
      ∃ w' : World ToyLib,
        demoBoxB.decrypt toyEnv (Ptr.mk 1 0) 43 demoFrameWorld =
          .raise (.assertion "crypto error: crypto_box_open_easy failed") w' := by
  refine ⟨by decide, by decide, ?_⟩
  obtain ⟨⟨w', h1, _⟩, _⟩ :=
    (C5_authentication_failure_raises toyEnv demoBoxB (Ptr.mk 1 0) 43 demoTampered
      demoFrameWorld (by decide) (by decide) (by decide) (by decide) (by decide)).1
      (by decide)
  exact ⟨w', h1⟩

/-- C1: let the vector `src` hold the plaintext `P` (any length, zero
included), let the frame fit a vector, let box A store B's public key and box
B store A's, and let the primitive seal `P` under the nonce drawn by this call
(return code 0, `|P| + MAC_LEN` bytes) and open that ciphertext back to `P`
under the same nonce and the matching keys. Then `A.encrypt(src)` returns a
frame, `B.decrypt(frame)` returns a vector whose content is exactly `P`, and
`B.decryptToString(frame)` returns `P`. The frame is the nonce followed by the
ciphertext, and B's call of the primitive takes the ciphertext at offset
`NONCE_LEN` of the frame with length `|P| + MAC_LEN`, the frame size minus
`NONCE_LEN`. -/
theorem C1_round_trip {σ : Type} (env : Env σ) (A B : CryptoBox) (src : Nat)
    (P : List byte) (w : World σ)
    (hP : w.heap[src]? = some P)
    (hfit : P.length + env.PREFIX_LEN ≤ env.max_size) (hmax : env.max_size < 2 ^ env.w)
    (hAB : A.peerPublicKey = B.publicKey) (hBA : B.peerPublicKey = A.publicKey)
    (hseal : (env.crypto_box_easy P (env.drawnNonce w) B.publicKey A.secretKey).1 = 0)
    (hlen : (env.crypto_box_easy P (env.drawnNonce w) B.publicKey A.secretKey).2.length =
      P.length + env.MAC_LEN)
    (hopen : env.crypto_box_open_easy
        (env.crypto_box_easy P (env.drawnNonce w) B.publicKey A.secretKey).2
        (env.drawnNonce w) A.publicKey B.secretKey = (0, P)) :
    ∃ w1 w2 : World σ,
      A.encrypt_bytevector env src w = .ret w.heap.length w1 ∧
      w1.heap[w.heap.length]? =
        some (env.drawnNonce w ++
          (env.crypto_box_easy P (env.drawnNonce w) B.publicKey A.secretKey).2) ∧
      B.decrypt_bytevector env w.heap.length w1 = .ret (w.heap.length + 1) w2 ∧
      w2.heap[w.heap.length + 1]? = some P ∧
      B.decryptToString_bytevector env w.heap.length w1 = .ret P w2 ∧
      w2.log = w1.log ++
        [Call.vector_new P.length,
          Call.crypto_box_open_easy (Ptr.mk (w.heap.length + 1) 0)
            (Ptr.mk w.heap.length env.NONCE_LEN) (P.length + env.MAC_LEN)
            (Ptr.mk w.heap.length 0) A.publicKey B.secretKey] := by
  unfold Env.drawnNonce at *
  have hnl := randombytes_length env env.NONCE_LEN w.lib
  generalize hnonce : (env.randombytes env.NONCE_LEN w.lib).1 = nonce at *
  generalize hc : (env.crypto_box_easy P nonce B.publicKey A.secretKey).2 = c at *
  have hlenA : (env.crypto_box_easy P nonce A.peerPublicKey A.secretKey).2.length =
      P.length + env.MAC_LEN := by rw [hAB, hc]; exact hlen
  -- A's side
  have hsrc := read_whole w.heap src P hP
  have hnonce' : (env.randombytes env.NONCE_LEN w.lib).1 = nonce := hnonce
  have he := encrypt_eq env A (Ptr.mk src 0) P.length P w hsrc hfit hmax
    (by rw [hnonce']; exact hlenA)
  rw [hnonce', hAB, hc, if_pos hseal] at he
  -- B's side
  have hFl : (nonce ++ c).length = P.length + env.PREFIX_LEN := by
    rw [List.length_append, hnl, hlen]
    unfold Env.PREFIX_LEN
    omega
  have hsz : (nonce ++ c).length - env.PREFIX_LEN = P.length := by omega
  have hszN : (nonce ++ c).length - env.NONCE_LEN = P.length + env.MAC_LEN := by
    rw [List.length_append, hnl, hlen]
    omega
  have hopenB : env.crypto_box_open_easy ((nonce ++ c).drop env.NONCE_LEN)
      ((nonce ++ c).take env.NONCE_LEN) B.peerPublicKey B.secretKey = (0, P) := by
    rw [List.drop_left' hnl, List.take_left' hnl, hBA]
    exact hopen
  let w1 : World σ :=
    { heap := w.heap ++ [nonce ++ c]
      lib := (env.randombytes env.NONCE_LEN w.lib).2
      log := w.log ++ [Call.vector_new (P.length + env.PREFIX_LEN)] ++
        [Call.randombytes_buf (Ptr.mk w.heap.length 0) env.NONCE_LEN] ++
        [Call.crypto_box_easy (Ptr.mk w.heap.length env.NONCE_LEN) (Ptr.mk src 0) P.length
          (Ptr.mk w.heap.length 0) B.publicKey A.secretKey] }
  have hF1 : w1.heap[w.heap.length]? = some (nonce ++ c) := by simp [w1]
  have hsrcB := read_whole w1.heap w.heap.length (nonce ++ c) hF1
  have hd := decrypt_eq env B (Ptr.mk w.heap.length 0) (nonce ++ c).length (nonce ++ c) w1
    hsrcB (by omega) (by omega) (by omega) (by rw [hopenB]; simp; omega)
  rw [hopenB] at hd
  simp only [if_true, hsz, Nat.sub_self, List.replicate_zero, List.append_nil, hszN] at hd
  have hw1len : w1.heap.length = w.heap.length + 1 := by simp [w1]
  rw [hw1len] at hd
  have hP2 : (w1.heap ++ [P])[w.heap.length + 1]? = some P := by
    rw [← hw1len]
    exact getElem?_concat_length _ _
  refine ⟨w1, ?w2, ?h1, hF1, ?h2, ?h3, ?h4, ?h5⟩
  case h2 =>
    unfold CryptoBox.decrypt_bytevector
    rw [hF1]
    exact hd
  case h1 =>
    unfold CryptoBox.encrypt_bytevector
    rw [hP]
    exact he
  case h3 => exact hP2
  case h4 =>
    unfold CryptoBox.decryptToString_bytevector CryptoBox.decrypt_bytevector
    rw [hF1]
    simp only []
    rw [hd]
    simp only [bind_ret]
    rw [show (w.heap ++ [nonce ++ c] ++ [P])[w.heap.length + 1]? = some P from hP2]
  case h5 =>
    rw [hBA]
    simp [w1, Ptr.add]

theorem C1_witness :
    demoWorld.heap[0]? = some [1, 2, 3] ∧
      demoBoxA.peerPublicKey = demoBoxB.publicKey ∧
      demoBoxB.peerPublicKey = demoBoxA.publicKey ∧
      ∃ w1 w2 : World ToyLib,
        demoBoxA.encrypt_bytevector toyEnv 0 demoWorld = .ret 1 w1 ∧
          demoBoxB.decryptToString_bytevector toyEnv 1 w1 = .ret [1, 2, 3] w2 := by
  refine ⟨by decide, by decide, by decide, ?_⟩
  obtain ⟨w1, w2, h1, _, _, _, h2, _⟩ :=
    C1_round_trip toyEnv demoBoxA demoBoxB 0 [1, 2, 3] demoWorld
      (by decide) (by decide) (by decide) (by decide) (by decide) (by decide) (by decide)
      (by decide)
  exact ⟨w1, w2, h1, h2⟩

end Globed
